import Mathlib

/-!
Verification of the recipier meal-planning engine (`recipier/meal_planner.py`,
`recipier/rounding_warnings.py`).  Python dicts are modelled as insertion-ordered
association lists, floats as rationals, Python's banker's `round` as `pyRound`,
and exceptions as `Option`.  The definitions below are direct translations of
the source functions; the theorems settle the specification's claims about them.
-/

namespace Recipier

/-- Association-list lookup: first entry with the given key (Python `dict[k]` /
`dict.get(k)` for dicts built without key collisions). -/
def alookup {β : Type} (k : String) : List (String × β) → Option β
  | [] => none
  | (k', v) :: rest => if k' = k then some v else alookup k rest

/-- Update the value at a key, or append a fresh entry derived from the default
value (Python `defaultdict` access followed by a mutation).  Preserves dict
insertion order. -/
def aupd {β : Type} (k : String) (f : β → β) (d : β) : List (String × β) → List (String × β)
  | [] => [(k, f d)]
  | (k', v) :: rest => if k' = k then (k', f v) :: rest else (k', v) :: aupd k f d rest

/-- Last element whose key matches (Python dict comprehension
`{key(x): x for x in l}` keeps the last binding for a repeated key). -/
def lookupLastBy {α : Type} (key : α → String) (k : String) (l : List α) : Option α :=
  l.foldl (fun acc x => if key x = k then some x else acc) none

/-- Apply `f` to the last element whose key matches, if any: mutating the object
found through a last-binding-wins Python dict of object references. -/
def updateLastBy {α : Type} (key : α → String) (k : String) (f : α → α) : List α → List α
  | [] => []
  | x :: rest =>
    if rest.any (fun y => key y == k) then x :: updateLastBy key k f rest
    else if key x = k then f x :: rest
    else x :: updateLastBy key k f rest

/-- Stable insertion of one element into a list sorted by trip index, placing it
after all entries with a smaller-or-equal index. -/
def insertByTripIndex (x : ℕ × ℚ) : List (ℕ × ℚ) → List (ℕ × ℚ)
  | [] => [x]
  | y :: ys => if y.1 ≤ x.1 then y :: insertByTripIndex x ys else x :: y :: ys

/-- Stable sort by trip index (Python `sorted(trip_needs, key=lambda x: x[0])`). -/
def sortByTripIndex (l : List (ℕ × ℚ)) : List (ℕ × ℚ) :=
  l.foldl (fun acc x => insertByTripIndex x acc) []

/-- Python's built-in `round` on exactly represented values: round half to even. -/
def pyRound (x : ℚ) : ℤ :=
  let n := ⌊x⌋
  let frac := x - n
  if frac < 1/2 then n
  else if 1/2 < frac then n + 1
  else if n % 2 = 0 then n else n + 1

/-- Sequence a fallible computation over a list (a Python loop that appends to a
result list and may raise). -/
def mapOption {α β : Type} (f : α → Option β) : List α → Option (List β)
  | [] => some []
  | x :: xs =>
    match f x with
    | none => none
    | some y =>
      match mapOption f xs with
      | none => none
      | some ys => some (y :: ys)

/-- Catalog entry for one ingredient (`meals_db["ingredient_details"][name]`):
missing keys are modelled by `Option` / the `.get` defaults used by the code. -/
structure IngredientDetails where
  caloriesPer100g : ℚ
  unitSize : Option ℚ
  adjustable : Option Bool
deriving DecidableEq

/-- Python `self.ingredient_details.get(name, ...)` followed by per-field `.get`
defaults (`calories_per_100g` defaults to 0, the other keys to absent). -/
def detailsOf (ingredientDetails : List (String × IngredientDetails)) (name : String) :
    IngredientDetails :=
  (alookup name ingredientDetails).getD ⟨0, none, none⟩

/-- Python truthiness of `details.get("unit_size")`: `None` and `0` are falsy. -/
def unitSizeTruthy (d : IngredientDetails) : Bool :=
  match d.unitSize with
  | none => false
  | some u => decide (u ≠ 0)

/-- The selection test of `compensate_calories_per_profile`:
`details.get("adjustable", True) and not details.get("unit_size")`. -/
def isAdjustable (ingredientDetails : List (String × IngredientDetails)) (name : String) :
    Bool :=
  let d := detailsOf ingredientDetails name
  (d.adjustable.getD true) && !(unitSizeTruthy d)

/-- The engine configuration fields the planner core reads (`TaskConfig`). -/
structure TaskConfig where
  dietProfiles : List (String × String)
  enableIngredientRounding : Bool
deriving DecidableEq

/-- Python `self.config.diet_profiles.get(person, person)`. -/
def profileOf (config : TaskConfig) (person : String) : String :=
  (alookup person config.dietProfiles).getD person

/-- One `per_person` entry of an expanded ingredient. -/
structure PersonData where
  quantity : ℤ
  unit : String
  portions : ℕ
deriving DecidableEq

/-- An expanded ingredient inside a meal (name / quantity / unit / category /
per-person breakdown). -/
structure Ingredient where
  name : String
  quantity : ℤ
  unit : String
  category : String
  perPerson : List (String × PersonData)
deriving DecidableEq

/-- An expanded meal: scheduled-instance id, recipe id, display name, the
eating dates per person, and the expanded ingredients. -/
structure Meal where
  id : String
  mealId : String
  name : String
  eatingDatesPerPerson : List (String × List String)
  ingredients : List Ingredient
deriving DecidableEq

/-- A shopping trip: the scheduled meal instance ids it covers. -/
structure Trip where
  scheduledMealIds : List String
deriving DecidableEq

/-- An expanded meal plan (`{"meals": ..., "shopping_trips": ...}`). -/
structure MealPlan where
  meals : List Meal
  shoppingTrips : List Trip
deriving DecidableEq

/-- One recipe ingredient from the meals database.  `servingMultipliers` models
a per-ingredient override-multiplier map present in the recipe data; the
expansion code never reads it. -/
structure BaseIngredient where
  name : String
  quantity : ℚ
  unit : String
  category : String
  servingMultipliers : Option (List (String × ℚ))
deriving DecidableEq

/-- A recipe from the meals database (`meals_db["meals"]` entry). -/
structure Recipe where
  mealId : String
  name : String
  baseServings : List (String × ℚ)
  ingredients : List BaseIngredient
deriving DecidableEq

/-- A scheduled meal from the raw plan. -/
structure ScheduledMeal where
  id : String
  mealId : String
  eatingDatesPerPerson : List (String × List String)
deriving DecidableEq

/-- A raw meal plan (`{"scheduled_meals": ..., "shopping_trips": ...}`). -/
structure RawMealPlan where
  scheduledMeals : List ScheduledMeal
  shoppingTrips : List Trip
deriving DecidableEq

/-- The per-ingredient core of `expand_meal_plan`: walk the servings map
(person ↦ number of eating dates), for each person with positive servings look
up the diet profile (`KeyError` = `none`), the recipe-level
`base_servings.get(profile, 1.0)` multiplier, and accumulate
`round(base_quantity * multiplier * servings)`.  Returns the accumulated total
and the `per_person` entries in iteration order. -/
def expandIngredientAux (config : TaskConfig) (recipe : Recipe) (ing : BaseIngredient) :
    List (String × ℕ) → Option (ℤ × List (String × PersonData))
  | [] => some (0, [])
  | (person, numServings) :: rest =>
    if 0 < numServings then
      match alookup person config.dietProfiles with
      | none => none
      | some dietProfile =>
        let baseServingSize := (alookup dietProfile recipe.baseServings).getD 1
        let personQty := pyRound (ing.quantity * baseServingSize * numServings)
        match expandIngredientAux config recipe ing rest with
        | none => none
        | some (t, pp) => some (personQty + t, (person, ⟨personQty, ing.unit, numServings⟩) :: pp)
    else expandIngredientAux config recipe ing rest

/-- Expansion of one recipe ingredient into an expanded `Ingredient`
(the body of the `for base_ing in recipe["ingredients"]` loop). -/
def expandIngredient (config : TaskConfig) (recipe : Recipe) (ing : BaseIngredient)
    (servings : List (String × ℕ)) : Option Ingredient :=
  (expandIngredientAux config recipe ing servings).map fun tp =>
    ⟨ing.name, pyRound (tp.1 : ℚ), ing.unit, ing.category, tp.2⟩

/-- Expansion of one scheduled meal against its recipe. -/
def expandMeal (config : TaskConfig) (recipe : Recipe) (sched : ScheduledMeal) :
    Option Meal :=
  let servings := sched.eatingDatesPerPerson.map fun pr => (pr.1, pr.2.length)
  (mapOption (fun ing => expandIngredient config recipe ing servings) recipe.ingredients).map
    fun ings => ⟨sched.id, sched.mealId, recipe.name, sched.eatingDatesPerPerson, ings⟩

/-- `expand_meal_plan`: look up each scheduled meal's recipe (last binding wins
in the `meals_lookup` dict; unknown id raises = `none`) and expand it. -/
def expandMealPlan (config : TaskConfig) (mealsDb : List Recipe) (rawPlan : RawMealPlan) :
    Option MealPlan :=
  (mapOption (fun sched =>
      match lookupLastBy Recipe.mealId sched.mealId mealsDb with
      | none => none
      | some recipe => expandMeal config recipe sched)
    rawPlan.scheduledMeals).map fun meals => ⟨meals, rawPlan.shoppingTrips⟩

/-- One `per_person_totals` entry of an aggregated ingredient (`defaultdict`
defaults: quantity 0, unit `None`, portions 0). -/
structure PersonTotal where
  quantity : ℤ
  unit : Option String
  portions : ℕ
deriving DecidableEq

/-- Aggregated data for one ingredient (both the per-trip `trip_ingredients`
values and the plan-wide `aggregated` values use this shape). -/
structure AggData where
  totalQty : ℚ
  unit : Option String
  category : Option String
  perPersonTotals : List (String × PersonTotal)
  distributedQuantities : Option (List ℚ)
deriving DecidableEq

/-- Python `meals_by_id.get(scheduled_meal_id)` (dict comprehension keeps the
last meal for a repeated id). -/
def lookupMealLast (meals : List Meal) (mealId : String) : Option Meal :=
  lookupLastBy Meal.id mealId meals

/-- Folding one meal ingredient into a trip's `trip_ingredients` defaultdict. -/
def addIngredientToTrip (acc : List (String × AggData)) (ing : Ingredient) :
    List (String × AggData) :=
  aupd ing.name (fun d =>
    { d with
      totalQty := d.totalQty + (ing.quantity : ℚ)
      unit := some ing.unit
      category := some ing.category
      perPersonTotals := ing.perPerson.foldl (fun pp pr =>
        aupd pr.1 (fun pt =>
          { pt with
            quantity := pt.quantity + pr.2.quantity
            unit := some pr.2.unit
            portions := pt.portions + pr.2.portions }) ⟨0, none, 0⟩ pp) d.perPersonTotals })
    ⟨0, none, none, [], none⟩ acc

/-- Collect the ingredients of one trip across its scheduled meals
(missing meal ids are skipped). -/
def tripIngredientsOf (meals : List Meal) (trip : Trip) : List (String × AggData) :=
  trip.scheduledMealIds.foldl (fun acc mid =>
    match lookupMealLast meals mid with
    | none => acc
    | some meal => meal.ingredients.foldl addIngredientToTrip acc) []

/-- Fold one trip's `trip_ingredients` into the plan-wide accumulators:
append the trip need and accumulate plan-wide totals and per-person totals. -/
def addTripToAggregates (tripIndex : ℕ)
    (acc : List (String × AggData) × List (String × List (ℕ × ℚ)))
    (entry : String × AggData) :
    List (String × AggData) × List (String × List (ℕ × ℚ)) :=
  let tn := aupd entry.1 (fun l => l ++ [(tripIndex, entry.2.totalQty)]) [] acc.2
  let agg := aupd entry.1 (fun d =>
    { d with
      totalQty := d.totalQty + entry.2.totalQty
      perPersonTotals := entry.2.perPersonTotals.foldl (fun pp pr =>
        aupd pr.1 (fun pt =>
          { pt with
            quantity := pt.quantity + pr.2.quantity
            unit := pr.2.unit
            portions := pt.portions + pr.2.portions }) ⟨0, none, 0⟩ pp) d.perPersonTotals })
    ⟨0, entry.2.unit, entry.2.category, [], none⟩ acc.1
  (agg, tn)

/-- `aggregate_ingredients_across_trips`: plan-wide aggregation plus the
per-trip needs list.  An empty trip list becomes one virtual trip over all
meals. -/
def aggregateIngredientsAcrossTrips (plan : MealPlan) :
    List (String × AggData) × List (String × List (ℕ × ℚ)) :=
  let trips := if plan.shoppingTrips.isEmpty then [⟨plan.meals.map Meal.id⟩]
               else plan.shoppingTrips
  trips.enum.foldl (fun acc pair =>
    (tripIngredientsOf plan.meals pair.2).foldl (addTripToAggregates pair.1) acc) ([], [])

/-- The call-level view of the Aggregator used to state purity: it returns its
result together with the meal plan as the caller's object stands after the
call (the source only ever reads from the plan). -/
def aggregateIngredientsAcrossTripsCall (plan : MealPlan) :
    (List (String × AggData) × List (String × List (ℕ × ℚ))) × MealPlan :=
  (aggregateIngredientsAcrossTrips plan, plan)

/-- The unit-buying loop of `distribute_rounded_quantity_across_trips` over all
trips but the last: buy nothing when the carried leftover covers the need,
otherwise buy `ceil(deficit / unit_size)` whole units. -/
def allocateUnits (unitSize : ℚ) (leftover : ℚ) : List ℚ → List ℤ
  | [] => []
  | need :: rest =>
    if leftover ≥ need then 0 :: allocateUnits unitSize (leftover - need) rest
    else
      let deficit := need - leftover
      let unitsToBuy := ⌈deficit / unitSize⌉
      unitsToBuy :: allocateUnits unitSize (leftover + unitsToBuy * unitSize - need) rest

/-- `distribute_rounded_quantity_across_trips`: greedy carry-forward allocation;
the last trip takes `total_units - sum(allocated)` so the overall purchase
matches `rounded_total` exactly. -/
def distributeRoundedQuantityAcrossTrips (roundedTotal unitSize : ℚ)
    (tripNeeds : List (ℕ × ℚ)) : List ℚ :=
  if tripNeeds.isEmpty then []
  else
    let sortedNeeds := sortByTripIndex tripNeeds
    let needs := sortedNeeds.map Prod.snd
    let totalUnits := pyRound (roundedTotal / unitSize)
    let firstUnits := allocateUnits unitSize 0 needs.dropLast
    (firstUnits ++ [totalUnits - firstUnits.sum]).map fun u : ℤ => (u : ℚ) * unitSize

/-- The `meal_quantities` record of `generate_rounding_warning`. -/
structure MealQty where
  mealName : String
  currentPortions : ℕ
  qtyPerPortion : ℚ
  totalQty : ℚ
deriving DecidableEq

/-- One entry of the warning's `meals` list. -/
structure MealWarnInfo where
  mealName : String
  currentPortions : ℕ
  suggestedAdditionalPortions : ℤ
deriving DecidableEq

/-- The warning record returned by `generate_rounding_warning`. -/
structure RoundingWarning where
  ingredientName : String
  originalQuantity : ℚ
  roundedQuantity : ℚ
  percentChange : ℚ
  meals : List MealWarnInfo
  combinedIncrease : ℤ
  unitSize : ℚ
deriving DecidableEq

/-- Total portions of a meal: the sum of eating-date counts across people. -/
def currentPortionsOf (meal : Meal) : ℕ :=
  (meal.eatingDatesPerPerson.map fun pr => pr.2.length).sum

/-- Test total of the per-meal suggestion search at `addPortions` extra
portions: `(current_portions + add_portions) * qty_per_portion`. -/
def perMealTestTotal (qtyPerPortion : ℚ) (portions : ℕ) (addPortions : ℤ) : ℚ :=
  ((portions : ℚ) + addPortions) * qtyPerPortion

/-- Acceptance test of the per-meal suggestion search: after adding
`addPortions` portions to this meal alone, its local rounding error is at most
30%.  Only consulted by `suggestedSearch` when the test total is non-zero —
on a zero test total the source raises before this comparison. -/
def perMealOk (unitSize qtyPerPortion : ℚ) (portions : ℕ) (addPortions : ℤ) : Bool :=
  let testTotal := perMealTestTotal qtyPerPortion portions addPortions
  let testRounded := (pyRound (testTotal / unitSize) : ℚ) * unitSize
  decide (|testRounded - testTotal| / testTotal ≤ 3/10)

/-- The per-meal suggestion loop (`for add_portions in range(1, 10)`).  `none`
models the `ZeroDivisionError` raised by `round(test_total / unit_size)` when
the unit size is 0 and by `abs(...) / test_total` when the test total is 0;
`some 0` is the fall-through when no candidate qualifies. -/
def suggestedSearch (unitSize qtyPerPortion : ℚ) (portions : ℕ) : List ℤ → Option ℤ
  | [] => some 0
  | k :: rest =>
    if unitSize = 0 then none
    else if perMealTestTotal qtyPerPortion portions k = 0 then none
    else if perMealOk unitSize qtyPerPortion portions k then some k
    else suggestedSearch unitSize qtyPerPortion portions rest

/-- Combined test total at `addPortions` extra portions on every meal using
the ingredient. -/
def combinedTestTotal (mealQuantities : List MealQty) (addPortions : ℤ) : ℚ :=
  (mealQuantities.map fun mq =>
    ((mq.currentPortions : ℚ) + addPortions) * mq.qtyPerPortion).sum

/-- Acceptance test of the combined-increase search: after adding `addPortions`
portions to every meal using the ingredient, the plan-wide rounding error is at
most 50%.  Only consulted by `combinedSearch` when the test total is
non-zero. -/
def combinedOk (unitSize : ℚ) (mealQuantities : List MealQty) (addPortions : ℤ) : Bool :=
  let newTotal := combinedTestTotal mealQuantities addPortions
  let newRounded := (pyRound (newTotal / unitSize) : ℚ) * unitSize
  decide (|newRounded - newTotal| / newTotal ≤ 1/2)

/-- The combined-increase loop (`for add_portions in range(1, 6)`).  `none`
models the `ZeroDivisionError` raised by `round(new_total / unit_size)` when
the unit size is 0 and by `abs(...) / new_total` when the combined test total
is 0; `some 0` when no candidate qualifies. -/
def combinedSearch (unitSize : ℚ) (mealQuantities : List MealQty) : List ℤ → Option ℤ
  | [] => some 0
  | k :: rest =>
    if unitSize = 0 then none
    else if combinedTestTotal mealQuantities k = 0 then none
    else if combinedOk unitSize mealQuantities k then some k
    else combinedSearch unitSize mealQuantities rest

/-- The meal loop of `generate_rounding_warning`: walk the meals in order and,
for every meal containing the ingredient, collect its `meal_quantities` entry
and its `meal_info` entry; a `ZeroDivisionError` inside a suggestion search
aborts the whole call (`none`). -/
def mealScan (ingredientName : String) (unitSize : ℚ) :
    List Meal → Option (List MealQty × List MealWarnInfo)
  | [] => some ([], [])
  | meal :: rest =>
    match meal.ingredients.find? (fun ing => ing.name == ingredientName) with
    | none => mealScan ingredientName unitSize rest
    | some ing =>
      let portions := currentPortionsOf meal
      let qtyPerPortion := if 0 < portions then (ing.quantity : ℚ) / portions
                           else (ing.quantity : ℚ)
      match suggestedSearch unitSize qtyPerPortion portions [1, 2, 3, 4, 5, 6, 7, 8, 9] with
      | none => none
      | some s =>
        match mealScan ingredientName unitSize rest with
        | none => none
        | some qi =>
          some (⟨meal.name, portions, qtyPerPortion, (ing.quantity : ℚ)⟩ :: qi.1,
            ⟨meal.name, portions, s⟩ :: qi.2)

/-- `generate_rounding_warning`: `some none` when no warning is due (original
total 0 — checked before any division — or change at most 50%),
`some (some w)` when a warning is emitted, and `none` when a suggestion or
combined-increase search raises `ZeroDivisionError`.  The `meals` list keeps
suggestions that are in 1..5 or 0 (larger ones are dropped), and the combined
search only runs when more than one meal uses the ingredient. -/
def generateRoundingWarning (ingredientName : String) (originalTotal roundedTotal unitSize : ℚ)
    (plan : MealPlan) : Option (Option RoundingWarning) :=
  if originalTotal = 0 then some none
  else
    let changeFrac := |roundedTotal - originalTotal| / originalTotal
    if 1/2 < changeFrac then
      match mealScan ingredientName unitSize plan.meals with
      | none => none
      | some qi =>
        match (if 1 < qi.1.length then combinedSearch unitSize qi.1 [1, 2, 3, 4, 5]
               else some 0) with
        | none => none
        | some combinedIncrease =>
          let practicalMealInfo := qi.2.filter fun mi =>
            (0 < mi.suggestedAdditionalPortions && mi.suggestedAdditionalPortions ≤ 5) ||
              mi.suggestedAdditionalPortions == 0
          some (some ⟨ingredientName, originalTotal, roundedTotal, changeFrac,
            practicalMealInfo, combinedIncrease, unitSize⟩)
    else some none

/-- The `adjustable_ingredients` list of `compensate_calories_per_profile`. -/
def adjustableNames (ingredientDetails : List (String × IngredientDetails))
    (aggregated : List (String × AggData)) : List String :=
  (aggregated.filter fun e => isAdjustable ingredientDetails e.1).map Prod.fst

/-- The `adjustable_calories_per_profile` accumulator: current calories of the
adjustable ingredients, per diet profile. -/
def adjustableCaloriesPerProfile (ingredientDetails : List (String × IngredientDetails))
    (config : TaskConfig) (aggregated : List (String × AggData)) : List (String × ℚ) :=
  aggregated.foldl (fun acc e =>
    if isAdjustable ingredientDetails e.1 then
      e.2.perPersonTotals.foldl (fun acc2 pr =>
        aupd (profileOf config pr.1)
          (fun c => c + ((pr.2.quantity : ℚ) / 100) * (detailsOf ingredientDetails e.1).caloriesPer100g)
          0 acc2) acc
    else acc) []

/-- The `adjustment_factors` dict: `(current - delta) / current` per profile in
the delta dict, 1.0 when the profile has no adjustable calories. -/
def adjustmentFactors (ingredientDetails : List (String × IngredientDetails))
    (config : TaskConfig) (aggregated : List (String × AggData))
    (calorieDeltaPerProfile : List (String × ℚ)) : List (String × ℚ) :=
  let adjCal := adjustableCaloriesPerProfile ingredientDetails config aggregated
  calorieDeltaPerProfile.map fun pd =>
    let c := (alookup pd.1 adjCal).getD 0
    (pd.1, if 0 < c then (c - pd.2) / c else 1)

/-- `adjustment_factors.get(diet_profiles.get(person, person), 1.0)`. -/
def factorFor (config : TaskConfig) (factors : List (String × ℚ)) (person : String) : ℚ :=
  (alookup (profileOf config person) factors).getD 1

/-- The per-meal half of the compensation: scale the per-person quantities of
every adjustable ingredient by the profile factor and recompute the
ingredient's total as the sum of the scaled per-person quantities. -/
def adjustMealIngredients (config : TaskConfig) (adjNames : List String)
    (factors : List (String × ℚ)) (meal : Meal) : Meal :=
  { meal with
    ingredients := meal.ingredients.map fun ing =>
      if ing.name ∈ adjNames then
        let newPP := ing.perPerson.map fun pr =>
          (pr.1, { pr.2 with
            quantity := pyRound ((pr.2.quantity : ℚ) * factorFor config factors pr.1) })
        { ing with
          quantity := (newPP.map fun pr => pr.2.quantity).sum
          perPerson := newPP }
      else ing }

/-- `compensate_calories_per_profile`: returns the aggregated dict and the meal
plan as the source leaves them.  No adjustable ingredients means no change;
otherwise the aggregated per-person totals and, for the meals reachable from
the shopping trips (or all meals when there are none), the meal ingredients are
scaled per profile. -/
def compensateCaloriesPerProfile (ingredientDetails : List (String × IngredientDetails))
    (config : TaskConfig) (aggregated : List (String × AggData))
    (calorieDeltaPerProfile : List (String × ℚ)) (plan : MealPlan) :
    List (String × AggData) × MealPlan :=
  let adjNames := adjustableNames ingredientDetails aggregated
  if adjNames.isEmpty then (aggregated, plan)
  else
    let factors := adjustmentFactors ingredientDetails config aggregated calorieDeltaPerProfile
    let newAgg := aggregated.map fun e =>
      (e.1,
        if e.1 ∈ adjNames then
          let newPP := e.2.perPersonTotals.map fun pr =>
            (pr.1, { pr.2 with
              quantity := pyRound ((pr.2.quantity : ℚ) * factorFor config factors pr.1) })
          { e.2 with
            perPersonTotals := newPP
            totalQty := ((newPP.map fun pr => pr.2.quantity).sum : ℚ) }
        else e.2)
    let newMeals :=
      if plan.shoppingTrips.isEmpty then
        plan.meals.map (adjustMealIngredients config adjNames factors)
      else
        (plan.shoppingTrips.foldl (fun ids trip => ids ++ trip.scheduledMealIds) []).foldl
          (fun ms mid =>
            updateLastBy Meal.id mid (adjustMealIngredients config adjNames factors) ms)
          plan.meals
    (newAgg, { plan with meals := newMeals })

/-- The Package Rounder formula for an ingredient with truthy unit size:
`max(unit_size, round(original_total / unit_size) * unit_size)`. -/
def packageRound (unitSize originalTotal : ℚ) : ℚ :=
  max unitSize ((pyRound (originalTotal / unitSize) : ℚ) * unitSize)

/-- The `trip_original_total` recomputation inside the write-back loop: the sum
of the matching ingredient's quantity over the trip's meals, read from the
current state of the plan. -/
def tripIngredientTotal (meals : List Meal) (trip : Trip) (ingName : String) : ℤ :=
  (trip.scheduledMealIds.map fun mid =>
    match lookupMealLast meals mid with
    | none => 0
    | some meal =>
      ((meal.ingredients.filter fun ing => ing.name == ingName).map Ingredient.quantity).sum).sum

/-- One step of the write-back loop: rescale the `j`-th ingredient of the meal
when it matches, using this meal's share of the trip total at this moment. -/
def writeBackIngredientAt (ingName : String) (distQty : ℚ) (trip : Trip) (mid : String)
    (meals : List Meal) (j : ℕ) : List Meal :=
  match lookupMealLast meals mid with
  | none => meals
  | some meal =>
    match meal.ingredients[j]? with
    | none => meals
    | some ing =>
      if ing.name = ingName then
        let mealOriginalQty := ing.quantity
        let tripOriginalTotal := tripIngredientTotal meals trip ingName
        if 0 < tripOriginalTotal then
          let mealNewQty := pyRound (distQty * ((mealOriginalQty : ℚ) / (tripOriginalTotal : ℚ)))
          let newPP := ing.perPerson.map fun pr =>
            let personShare := if 0 < mealOriginalQty
                               then (pr.2.quantity : ℚ) / (mealOriginalQty : ℚ) else 0
            (pr.1, { pr.2 with quantity := pyRound ((mealNewQty : ℚ) * personShare) })
          updateLastBy Meal.id mid (fun m =>
            { m with ingredients :=
                m.ingredients.set j { ing with quantity := mealNewQty, perPerson := newPP } })
            meals
        else meals
      else meals

/-- Write one trip's distributed quantity into one scheduled meal, walking the
meal's ingredient positions in order. -/
def writeBackMeal (ingName : String) (distQty : ℚ) (trip : Trip) (mid : String)
    (meals : List Meal) : List Meal :=
  match lookupMealLast meals mid with
  | none => meals
  | some meal =>
    (List.range meal.ingredients.length).foldl
      (writeBackIngredientAt ingName distQty trip mid) meals

/-- State threaded through the rounding loop of
`round_and_distribute_ingredients`: the plan being mutated, the aggregated
dict, the collected warnings, and the per-profile calorie deltas. -/
structure PipelineState where
  plan : MealPlan
  agg : List (String × AggData)
  warnings : List RoundingWarning
  calorieDeltas : List (String × ℚ)
deriving DecidableEq

/-- One iteration of the Phase-2/3 loop over the aggregated ingredients:
ingredients without a truthy `unit_size` pass through untouched; the rest are
rounded with `packageRound`, may emit a warning, accumulate calorie deltas per
profile, and have the rounded total written back into the meals (distributed
across trips when the plan has trips and needs, else proportionally).  A
`ZeroDivisionError` raised inside `generate_rounding_warning` propagates out of
the whole iteration (`none`). -/
def roundStep (ingredientDetails : List (String × IngredientDetails)) (config : TaskConfig)
    (tripNeeds : List (String × List (ℕ × ℚ))) (st : PipelineState)
    (item : String × AggData) : Option PipelineState :=
  let d := detailsOf ingredientDetails item.1
  match d.unitSize with
  | none => some st
  | some u =>
    if u = 0 then some st
    else
      let originalTotal := item.2.totalQty
      let roundedTotal := packageRound u originalTotal
      match generateRoundingWarning item.1 originalTotal roundedTotal u st.plan with
      | none => none
      | some warningOpt =>
        let warnings' :=
          match warningOpt with
          | some w => st.warnings ++ [w]
          | none => st.warnings
        let deltaQty := roundedTotal - originalTotal
        let deltas' := item.2.perPersonTotals.foldl (fun acc pr =>
          let personShare := if 0 < originalTotal then (pr.2.quantity : ℚ) / originalTotal else 0
          aupd (profileOf config pr.1)
            (fun c => c + deltaQty * personShare / 100 * d.caloriesPer100g) 0 acc)
          st.calorieDeltas
        let agg' := st.agg.map fun e =>
          if e.1 = item.1 then (e.1, { e.2 with totalQty := roundedTotal }) else e
        match if st.plan.shoppingTrips.isEmpty then none else alookup item.1 tripNeeds with
        | some needs =>
          let dist := distributeRoundedQuantityAcrossTrips roundedTotal u needs
          let agg2 := agg'.map fun e =>
            if e.1 = item.1 then (e.1, { e.2 with distributedQuantities := some dist }) else e
          let newMeals := ((sortByTripIndex needs).zip dist).foldl (fun ms pair =>
            let trip := st.plan.shoppingTrips.getD pair.1.1 ⟨[]⟩
            trip.scheduledMealIds.foldl (fun ms2 mid => writeBackMeal item.1 pair.2 trip mid ms2)
              ms)
            st.plan.meals
          some ⟨{ st.plan with meals := newMeals }, agg2, warnings', deltas'⟩
        | none =>
          let newMeals := st.plan.meals.map fun m =>
            { m with ingredients := m.ingredients.map fun ing =>
              if ing.name = item.1 then
                if 0 < originalTotal then
                  let mealNewQty := pyRound (roundedTotal * ((ing.quantity : ℚ) / originalTotal))
                  { ing with
                    quantity := mealNewQty
                    perPerson := ing.perPerson.map fun pr =>
                      let personShare := if 0 < ing.quantity
                                         then (pr.2.quantity : ℚ) / (ing.quantity : ℚ) else 0
                      (pr.1, { pr.2 with quantity := pyRound ((mealNewQty : ℚ) * personShare) }) }
                else ing
              else ing }
          some ⟨{ st.plan with meals := newMeals }, agg', warnings', deltas'⟩

/-- `round_and_distribute_ingredients`, phases 1-4: aggregate, round and write
back each package-constrained ingredient, then compensate calories and
re-aggregate when some profile's accumulated delta exceeds 0.1 kcal.  `none`
models the `ZeroDivisionError` that a warning-generation call can raise out of
the whole function. -/
def roundAndDistributeIngredients (ingredientDetails : List (String × IngredientDetails))
    (config : TaskConfig) (plan0 : MealPlan) : Option PipelineState :=
  let agg0 := (aggregateIngredientsAcrossTrips plan0).1
  let tripNeeds := (aggregateIngredientsAcrossTrips plan0).2
  if config.enableIngredientRounding then
    match agg0.foldl (fun ost item =>
        ost.bind fun st => roundStep ingredientDetails config tripNeeds st item)
        (some ⟨plan0, agg0, [], []⟩) with
    | none => none
    | some st =>
      if st.calorieDeltas.any (fun pd => decide ((1:ℚ)/10 < |pd.2|)) then
        let plan1 := (compensateCaloriesPerProfile ingredientDetails config st.agg
          st.calorieDeltas st.plan).2
        let agg1 := (aggregateIngredientsAcrossTrips plan1).1
        some ⟨plan1, agg1, st.warnings, st.calorieDeltas⟩
      else some st
  else some ⟨plan0, agg0, [], []⟩

/-- The serving multiplier exactly as the specification words it: an
ingredient-level override for the profile is preferred over the recipe-level
default, and 1.0 is used when the profile is absent from either map.  Stated
for comparison with what `expandIngredientAux` actually computes. -/
def specServingMultiplier (recipe : Recipe) (ing : BaseIngredient) (profile : String) : ℚ :=
  match ing.servingMultipliers with
  | some overrides =>
    match alookup profile overrides with
    | some v => v
    | none => (alookup profile recipe.baseServings).getD 1
  | none => (alookup profile recipe.baseServings).getD 1

/-- Example meal for the warning-threshold scenario: one meal, one person, one
eating date, 25 units of the ingredient. -/
def wMeal : Meal :=
  ⟨"w1", "r1", "mw", [("A", ["d1"])], [⟨"x", 25, "g", "veg", [("A", ⟨25, "g", 1⟩)]⟩]⟩

/-- Example plan containing only `wMeal`. -/
def wPlan : MealPlan := ⟨[wMeal], [⟨["w1"]⟩]⟩

/-- Meal whose quantity of the ingredient is 0: its per-meal suggestion search
divides by a zero test total at the first candidate. -/
def zMeal : Meal :=
  ⟨"z1", "r1", "mz", [("A", ["d1"])], [⟨"x", 0, "g", "veg", [("A", ⟨0, "g", 1⟩)]⟩]⟩

/-- Plan pairing the zero-quantity meal with the 25-unit meal: the plan-wide
original is positive yet warning generation raises. -/
def zPlan : MealPlan := ⟨[zMeal, wMeal], [⟨["z1", "w1"]⟩]⟩

/-- First meal of the two-meal combined-increase scenario (12 units). -/
def c8m1 : Meal :=
  ⟨"e1", "r1", "me1", [("A", ["d1"])], [⟨"x", 12, "g", "veg", [("A", ⟨12, "g", 1⟩)]⟩]⟩

/-- Second meal of the two-meal combined-increase scenario (13 units). -/
def c8m2 : Meal :=
  ⟨"e2", "r2", "me2", [("A", ["d2"])], [⟨"x", 13, "g", "veg", [("A", ⟨13, "g", 1⟩)]⟩]⟩

/-- Two-meal plan whose ingredient totals 25 units. -/
def c8plan : MealPlan := ⟨[c8m1, c8m2], [⟨["e1", "e2"]⟩]⟩

/-- Recipe ingredient carrying an ingredient-level override multiplier (3 for
profile `profA`) that the expansion code never consults. -/
def ovIng : BaseIngredient := ⟨"x", 10, "g", "veg", some [("profA", 3)]⟩

/-- Recipe whose recipe-level multiplier for `profA` is 2 while its only
ingredient carries an override of 3. -/
def ovRecipe : Recipe := ⟨"r1", "rec", [("profA", 2)], [ovIng]⟩

/-- Config mapping person `A` to diet profile `profA`. -/
def ovConfig : TaskConfig := ⟨[("A", "profA")], true⟩

/-- Catalog for the compensation scenarios: `rock` is explicitly
non-adjustable, `rice` has no `adjustable` key (defaults to adjustable). -/
def frameDetails : List (String × IngredientDetails) :=
  [("rock", ⟨100, none, some false⟩), ("rice", ⟨100, none, none⟩)]

/-- Config for the compensation scenarios. -/
def frameConfig : TaskConfig := ⟨[("A", "p")], true⟩

/-- Aggregated entry for `rock` (100 units for person A). -/
def frameAggRock : AggData := ⟨100, some "g", some "c", [("A", ⟨100, some "g", 1⟩)], none⟩

/-- Aggregated entry for `rice` (200 units for person A). -/
def frameAggRice : AggData := ⟨200, some "g", some "c", [("A", ⟨200, some "g", 1⟩)], none⟩

/-- Aggregated map for the compensation frame scenario. -/
def frameAgg : List (String × AggData) := [("rock", frameAggRock), ("rice", frameAggRice)]

/-- Calorie deltas demanding removal of 100 kcal from profile `p`. -/
def frameDeltas : List (String × ℚ) := [("p", 100)]

/-- Meal containing both `rock` and `rice`. -/
def frameMeal : Meal :=
  ⟨"m", "r", "mname", [("A", ["d1"])],
    [⟨"rock", 100, "g", "c", [("A", ⟨100, "g", 1⟩)]⟩,
     ⟨"rice", 200, "g", "c", [("A", ⟨200, "g", 1⟩)]⟩]⟩

/-- Plan (no shopping trips) containing `frameMeal`. -/
def framePlan : MealPlan := ⟨[frameMeal], []⟩

/-- The same single-meal plan, but reached through a shopping trip. -/
def framePlanTrips : MealPlan := ⟨[frameMeal], [⟨["m"]⟩]⟩

/-- Catalog knowing only `rice`; the `mystery` ingredient has no entry. -/
def riceDetails : List (String × IngredientDetails) := [("rice", ⟨100, none, none⟩)]

/-- Aggregated entry for the catalog-less `mystery` ingredient. -/
def mysteryAgg : AggData := ⟨100, some "g", some "c", [("A", ⟨100, some "g", 1⟩)], none⟩

/-- Aggregated map pairing `mystery` (no catalog entry, 0 calories) with the
calorie-bearing adjustable `rice`. -/
def mysteryAggList : List (String × AggData) := [("mystery", mysteryAgg), ("rice", frameAggRice)]

/-- An empty meal plan. -/
def emptyPlan : MealPlan := ⟨[], []⟩

/-- Catalog for the conservation counterexample: `x` comes in packages of 40
and carries no calories. -/
def cDetails : List (String × IngredientDetails) := [("x", ⟨0, some 40, none⟩)]

/-- Config for the conservation counterexample: three people on one profile. -/
def cConfig : TaskConfig := ⟨[("A", "p"), ("B", "p"), ("C", "p")], true⟩

/-- Expanded meal: 3 units of `x` split 1/1/1 across three people. -/
def cMeal : Meal :=
  ⟨"m1", "r1", "meal one", [("A", ["d1"]), ("B", ["d1"]), ("C", ["d1"])],
    [⟨"x", 3, "g", "veg", [("A", ⟨1, "g", 1⟩), ("B", ⟨1, "g", 1⟩), ("C", ⟨1, "g", 1⟩)]⟩]⟩

/-- Plan with a single shopping trip covering `cMeal`. -/
def cPlan : MealPlan := ⟨[cMeal], [⟨["m1"]⟩]⟩

/-- Base recipe ingredient for the conservation witness. -/
def exIngBase : BaseIngredient := ⟨"y", 10, "g", "veg", none⟩

/-- Recipe for the conservation witness. -/
def exRecipe : Recipe := ⟨"r1", "rname", [("p", 1)], [exIngBase]⟩

/-- Config for the conservation witness. -/
def exConfig : TaskConfig := ⟨[("A", "p")], true⟩

/-- Raw plan: one scheduled meal, person A eats on two dates, no trips. -/
def exRaw : RawMealPlan := ⟨[⟨"s1", "r1", [("A", ["d1", "d2"])]⟩], []⟩

/-- The expanded ingredient produced from `exRaw`: 10 x 1.0 x 2 = 20. -/
def exIng : Ingredient := ⟨"y", 20, "g", "veg", [("A", ⟨20, "g", 2⟩)]⟩

/-- The expanded meal produced from `exRaw`. -/
def exMeal : Meal := ⟨"s1", "r1", "rname", [("A", ["d1", "d2"])], [exIng]⟩

/-- The expanded plan produced from `exRaw`. -/
def exPlan : MealPlan := ⟨[exMeal], []⟩

theorem alookup_mem {β : Type} {k : String} {v : β} :
    ∀ {l : List (String × β)}, alookup k l = some v → (k, v) ∈ l := by
  intro l
  induction l with
  | nil => intro h; simp [alookup] at h
  | cons e rest ih =>
    obtain ⟨k', v'⟩ := e
    intro h
    rw [alookup] at h
    by_cases he : k' = k
    · rw [if_pos he] at h
      injection h with h2
      subst he; subst h2
      exact List.mem_cons_self _ _
    · rw [if_neg he] at h
      exact List.mem_cons_of_mem _ (ih h)

theorem alookup_map {β : Type} (g : String → β → β) (k : String) :
    ∀ l : List (String × β),
      alookup k (l.map fun e => (e.1, g e.1 e.2)) = (alookup k l).map (g k) := by
  intro l
  induction l with
  | nil => simp [alookup]
  | cons e rest ih =>
    by_cases he : e.1 = k
    · subst he; simp [alookup, ih]
    · simp [alookup, he, ih]

theorem map_updateLastBy {α β : Type} (key : α → String) (k : String) (f : α → α)
    (h : α → β) (hf : ∀ x, h (f x) = h x) :
    ∀ l : List α, (updateLastBy key k f l).map h = l.map h := by
  intro l
  induction l with
  | nil => rfl
  | cons x rest ih =>
    rw [updateLastBy]
    by_cases hany : rest.any (fun y => key y == k)
    · simp only [hany, if_true, List.map_cons, ih]
    · rw [if_neg (by simpa using hany)]
      by_cases hx : key x = k
      · simp [hx, hf]
      · simp [hx, ih]

theorem insertByTripIndex_perm (x : ℕ × ℚ) :
    ∀ l : List (ℕ × ℚ), (insertByTripIndex x l).Perm (x :: l) := by
  intro l
  induction l with
  | nil => simp [insertByTripIndex]
  | cons y ys ih =>
    rw [insertByTripIndex]
    by_cases h : y.1 ≤ x.1
    · rw [if_pos h]
      exact (ih.cons y).trans (List.Perm.swap x y ys)
    · rw [if_neg h]

theorem sortByTripIndex_perm (l : List (ℕ × ℚ)) : (sortByTripIndex l).Perm l := by
  have key : ∀ (l acc : List (ℕ × ℚ)),
      (l.foldl (fun acc x => insertByTripIndex x acc) acc).Perm (acc ++ l) := by
    intro l
    induction l with
    | nil => simp
    | cons x xs ih =>
      intro acc
      simp only [List.foldl_cons]
      exact (ih (insertByTripIndex x acc)).trans
        (((insertByTripIndex_perm x acc).append_right xs).trans List.perm_middle.symm)
  simpa using key l []

theorem pyRound_intCast (k : ℤ) : pyRound (k : ℚ) = k := by
  unfold pyRound
  norm_num

theorem le_pyRound (x : ℚ) : x - 1/2 ≤ (pyRound x : ℚ) := by
  unfold pyRound
  have hfl : (⌊x⌋ : ℚ) ≤ x := Int.floor_le x
  have hfu : x < ⌊x⌋ + 1 := Int.lt_floor_add_one x
  by_cases h1 : x - ⌊x⌋ < 1/2
  · rw [if_pos h1]; linarith
  · rw [if_neg h1]
    by_cases h2 : 1/2 < x - ⌊x⌋
    · rw [if_pos h2]; push_cast; linarith
    · rw [if_neg h2]
      by_cases h3 : ⌊x⌋ % 2 = 0
      · rw [if_pos h3]; linarith
      · rw [if_neg h3]; push_cast; linarith

/-- Evaluation helper: rewrite `Int.ceil` through `Int.floor` so that concrete
ceilings of rationals can be computed. -/
theorem intCeil_eq_neg_floor (a : ℚ) : (⌈a⌉ : ℤ) = -⌊-a⌋ := by
  rw [Int.floor_neg, neg_neg]

theorem combinedSearch_spec (unitSize : ℚ) (mealQuantities : List MealQty) :
    ∀ l : List ℤ, l.Pairwise (· < ·) → ∀ c : ℤ,
      combinedSearch unitSize mealQuantities l = some c →
      (c = 0 ∧ ∀ k ∈ l, combinedOk unitSize mealQuantities k = false) ∨
      (c ∈ l ∧ combinedOk unitSize mealQuantities c = true ∧
        ∀ j ∈ l, j < c → combinedOk unitSize mealQuantities j = false) := by
  intro l
  induction l with
  | nil =>
    intro _ c hc
    rw [combinedSearch] at hc
    injection hc with hc
    left
    exact ⟨hc.symm, by simp⟩
  | cons k rest ih =>
    intro hpw c hc
    rw [combinedSearch] at hc
    by_cases hU : unitSize = 0
    · rw [if_pos hU] at hc
      exact absurd hc (by simp)
    · rw [if_neg hU] at hc
      by_cases ht : combinedTestTotal mealQuantities k = 0
      · rw [if_pos ht] at hc
        exact absurd hc (by simp)
      · rw [if_neg ht] at hc
        by_cases hok : combinedOk unitSize mealQuantities k
        · rw [if_pos hok] at hc
          injection hc with hc
          subst hc
          right
          refine ⟨List.mem_cons_self _ _, hok, ?_⟩
          intro j hj hlt
          rcases List.mem_cons.mp hj with rfl | hj'
          · exact absurd hlt (lt_irrefl j)
          · exact absurd hlt (not_lt.mpr (le_of_lt ((List.pairwise_cons.mp hpw).1 j hj')))
        · rw [if_neg hok] at hc
          rcases ih (List.pairwise_cons.mp hpw).2 c hc with ⟨h0, hall⟩ | ⟨hmem, hsat, hmin⟩
          · left
            refine ⟨h0, ?_⟩
            intro kk hkk
            rcases List.mem_cons.mp hkk with rfl | hk'
            · simpa using hok
            · exact hall kk hk'
          · right
            refine ⟨List.mem_cons_of_mem _ hmem, hsat, ?_⟩
            intro j hj hlt
            rcases List.mem_cons.mp hj with rfl | hj'
            · simpa using hok
            · exact hmin j hj' hlt

theorem mapOption_mem {α β : Type} (f : α → Option β) :
    ∀ {l : List α} {b : List β}, mapOption f l = some b →
      ∀ y ∈ b, ∃ x ∈ l, f x = some y := by
  intro l
  induction l with
  | nil => intro b h y hy; simp [mapOption] at h; subst h; simp at hy
  | cons x xs ih =>
    intro b h y hy
    rw [mapOption] at h
    cases hfx : f x with
    | none => rw [hfx] at h; exact absurd h (by simp)
    | some z =>
      rw [hfx] at h
      cases hrest : mapOption f xs with
      | none => rw [hrest] at h; exact absurd h (by simp)
      | some zs =>
        rw [hrest] at h
        cases h
        rcases List.mem_cons.mp hy with rfl | hy'
        · exact ⟨x, List.mem_cons_self x xs, hfx⟩
        · obtain ⟨x', hx', hfx'⟩ := ih hrest y hy'
          exact ⟨x', List.mem_cons_of_mem x hx', hfx'⟩

theorem allocateUnits_length (unitSize : ℚ) :
    ∀ (ns : List ℚ) (leftover : ℚ), (allocateUnits unitSize leftover ns).length = ns.length := by
  intro ns
  induction ns with
  | nil => intro _; rfl
  | cons need rest ih =>
    intro leftover
    rw [allocateUnits]
    by_cases h : leftover ≥ need
    · rw [if_pos h]; simp [ih]
    · rw [if_neg h]; simp [ih]

theorem sum_map_intCast_mul (unitSize : ℚ) :
    ∀ l : List ℤ, (l.map fun u : ℤ => (u : ℚ) * unitSize).sum = (l.sum : ℚ) * unitSize := by
  intro l
  induction l with
  | nil => simp
  | cons x xs ih =>
    simp only [List.map_cons, List.sum_cons, ih, Int.cast_add]
    ring

theorem allocateUnits_nonneg (unitSize : ℚ) (hU : 0 < unitSize) :
    ∀ (ns : List ℚ) (leftover : ℚ), ∀ u ∈ allocateUnits unitSize leftover ns, 0 ≤ u := by
  intro ns
  induction ns with
  | nil => intro L u hu; simp [allocateUnits] at hu
  | cons need rest ih =>
    intro L u hu
    rw [allocateUnits] at hu
    by_cases h : L ≥ need
    · rw [if_pos h] at hu
      rcases List.mem_cons.mp hu with rfl | hu'
      · exact le_refl 0
      · exact ih _ u hu'
    · rw [if_neg h] at hu
      rcases List.mem_cons.mp hu with rfl | hu'
      · have hd : (0:ℚ) < need - L := by linarith [lt_of_not_ge h]
        have hpos : (0:ℤ) < ⌈(need - L) / unitSize⌉ := by
          rw [Int.ceil_pos]
          exact div_pos hd hU
        exact le_of_lt hpos
      · exact ih _ u hu'

theorem allocateUnits_sum_bound (unitSize : ℚ) (hU : 0 < unitSize) :
    ∀ (ns : List ℚ) (leftover : ℚ), 0 ≤ leftover → leftover < unitSize →
      (∀ q ∈ ns, 0 ≤ q) →
      ((allocateUnits unitSize leftover ns).sum : ℚ) * unitSize < ns.sum - leftover + unitSize := by
  intro ns
  induction ns with
  | nil => intro L h0 hL _; simpa [allocateUnits] using by linarith
  | cons need rest ih =>
    intro L h0 hL hnn
    have hneed : 0 ≤ need := hnn need (List.mem_cons_self _ _)
    have hrest : ∀ q ∈ rest, 0 ≤ q := fun q hq => hnn q (List.mem_cons_of_mem _ hq)
    rw [allocateUnits]
    by_cases h : L ≥ need
    · rw [if_pos h]
      have hb := ih (L - need) (by linarith) (by linarith) hrest
      simp only [List.sum_cons, zero_add]
      linarith
    · rw [if_neg h]
      have hd : (0:ℚ) < need - L := by linarith [lt_of_not_ge h]
      simp only [List.sum_cons, Int.cast_add]
      set c := ⌈(need - L) / unitSize⌉ with hc
      have hcl : (need - L) / unitSize ≤ (c : ℚ) := Int.le_ceil _
      have hcu : (c : ℚ) < (need - L) / unitSize + 1 := Int.ceil_lt_add_one _
      have hcl' : need - L ≤ (c : ℚ) * unitSize := by
        have := mul_le_mul_of_nonneg_right hcl (le_of_lt hU)
        rwa [div_mul_cancel₀ _ (ne_of_gt hU)] at this
      have hcu' : (c : ℚ) * unitSize < need - L + unitSize := by
        have := mul_lt_mul_of_pos_right hcu hU
        rwa [add_mul, div_mul_cancel₀ _ (ne_of_gt hU), one_mul] at this
      have hL' : 0 ≤ L + (c : ℚ) * unitSize - need := by linarith
      have hL'' : L + (c : ℚ) * unitSize - need < unitSize := by linarith
      have hb := ih (L + (c : ℚ) * unitSize - need) hL' hL'' hrest
      have hexp : ((c + (allocateUnits unitSize (L + (c : ℚ) * unitSize - need) rest).sum : ℤ) : ℚ)
          = (c : ℚ) + ((allocateUnits unitSize (L + (c : ℚ) * unitSize - need) rest).sum : ℚ) := by
        push_cast
        ring
      nlinarith [hb, hcl', hcu']

/-- Claim C2: on a non-empty trip-needs list with positive unit size and a
rounded total that is an exact integer multiple of the unit size, the Trip
Distributor returns one allocation per trip, every allocation is an integer
multiple of the unit size, and the allocations sum exactly to the rounded
total. -/
theorem distribute_exactness (roundedTotal unitSize : ℚ) (tripNeeds : List (ℕ × ℚ))
    (hne : tripNeeds ≠ []) (hU : 0 < unitSize) (k : ℤ)
    (hk : roundedTotal = (k : ℚ) * unitSize) :
    (distributeRoundedQuantityAcrossTrips roundedTotal unitSize tripNeeds).length
        = tripNeeds.length ∧
    (∀ q ∈ distributeRoundedQuantityAcrossTrips roundedTotal unitSize tripNeeds,
        ∃ m : ℤ, q = (m : ℚ) * unitSize) ∧
    (distributeRoundedQuantityAcrossTrips roundedTotal unitSize tripNeeds).sum
        = roundedTotal := by
  have hne' : tripNeeds.isEmpty = false := by
    cases tripNeeds with
    | nil => exact absurd rfl hne
    | cons a l => rfl
  have hperm := sortByTripIndex_perm tripNeeds
  have hlen : (sortByTripIndex tripNeeds).length = tripNeeds.length := hperm.length_eq
  have hlenpos : 0 < tripNeeds.length := by
    cases tripNeeds with
    | nil => exact absurd rfl hne
    | cons a l => simp
  have hdiv : roundedTotal / unitSize = (k : ℚ) := by
    rw [hk, mul_div_cancel_right₀ _ (ne_of_gt hU)]
  unfold distributeRoundedQuantityAcrossTrips
  rw [hne']
  simp only [Bool.false_eq_true, if_false, hdiv, pyRound_intCast]
  refine ⟨?_, ?_, ?_⟩
  · simp only [List.length_map, List.length_append, allocateUnits_length, List.length_dropLast,
      hlen, List.length_singleton]
    omega
  · intro q hq
    simp only [List.mem_map] at hq
    obtain ⟨u, _, rfl⟩ := hq
    exact ⟨u, rfl⟩
  · rw [sum_map_intCast_mul, List.sum_append, List.sum_singleton]
    have hcancel : ∀ S : ℤ, S + (k - S) = k := fun S => by ring
    rw [hcancel, hk]

/-- Claim C3 (amended): with non-negative needs and the rounded total produced
by the Package Rounder's own formula, the allocations of all trips before the
last are non-negative, and the final trip's allocation is never less than
`-unitSize` — but it can be negative (see the counterexample). -/
theorem lastTrip_lower_bound (unitSize : ℚ) (tripNeeds : List (ℕ × ℚ))
    (hne : tripNeeds ≠ []) (hU : 0 < unitSize)
    (hnn : ∀ p ∈ tripNeeds, 0 ≤ p.2)
    (rt : ℚ) (hrt : rt = packageRound unitSize ((tripNeeds.map Prod.snd).sum)) :
    ∃ initAllocs lastAlloc,
      distributeRoundedQuantityAcrossTrips rt unitSize tripNeeds = initAllocs ++ [lastAlloc] ∧
      (∀ q ∈ initAllocs, 0 ≤ q) ∧ -unitSize ≤ lastAlloc := by
  have hne' : tripNeeds.isEmpty = false := by
    cases tripNeeds with
    | nil => exact absurd rfl hne
    | cons a l => rfl
  have hperm := sortByTripIndex_perm tripNeeds
  have hpermN : ((sortByTripIndex tripNeeds).map Prod.snd).Perm (tripNeeds.map Prod.snd) :=
    hperm.map Prod.snd
  set needs := (sortByTripIndex tripNeeds).map Prod.snd with hneeds
  have hT : needs.sum = (tripNeeds.map Prod.snd).sum := hpermN.sum_eq
  have hneedsnn : ∀ q ∈ needs, 0 ≤ q := by
    intro q hq
    have := hpermN.mem_iff.mp hq
    obtain ⟨p, hp, rfl⟩ := List.mem_map.mp this
    exact hnn p hp
  have hneedsne : needs ≠ [] := by
    intro hcontra
    have h1 : needs.length = 0 := by rw [hcontra]; rfl
    rw [hneeds, List.length_map, hperm.length_eq] at h1
    cases tripNeeds with
    | nil => exact hne rfl
    | cons a l => simp at h1
  set T := (tripNeeds.map Prod.snd).sum with hTdef
  have hTnn : 0 ≤ T := by
    rw [← hT]
    exact List.sum_nonneg hneedsnn
  set m := pyRound (T / unitSize) with hm
  have hrtU : rt / unitSize = ((max 1 m : ℤ) : ℚ) := by
    rw [hrt, packageRound, ← hm]
    have hmm : max unitSize ((m : ℚ) * unitSize) = ((max 1 m : ℤ) : ℚ) * unitSize := by
      push_cast
      rw [max_mul_of_nonneg _ _ (le_of_lt hU), one_mul]
    rw [hmm, mul_div_cancel_right₀ _ (ne_of_gt hU)]
  set S := (allocateUnits unitSize 0 needs.dropLast).sum with hS
  have hdecomp : needs.dropLast.sum + needs.getLast hneedsne = needs.sum := by
    conv_rhs => rw [← List.dropLast_append_getLast hneedsne]
    rw [List.sum_append, List.sum_singleton]
  have hdl : needs.dropLast.sum ≤ T := by
    have hg : 0 ≤ needs.getLast hneedsne := hneedsnn _ (List.getLast_mem hneedsne)
    rw [← hT]
    linarith [hdecomp]
  have hdlnn : ∀ q ∈ needs.dropLast, 0 ≤ q := fun q hq =>
    hneedsnn q (List.dropLast_subset needs hq)
  have hSb : (S : ℚ) * unitSize < needs.dropLast.sum + unitSize := by
    have hb := allocateUnits_sum_bound unitSize hU needs.dropLast 0 (le_refl 0) hU hdlnn
    rw [← hS] at hb
    linarith
  have hSb2 : (S : ℚ) * unitSize < T + unitSize := by linarith
  have hmge : T / unitSize - 1/2 ≤ (m : ℚ) := by
    rw [hm]; exact le_pyRound _
  have hSlt : (S : ℚ) < T / unitSize + 1 := by
    have h1 : (S : ℚ) * unitSize < (T / unitSize + 1) * unitSize := by
      rw [add_mul, div_mul_cancel₀ _ (ne_of_gt hU), one_mul]
      exact hSb2
    exact lt_of_mul_lt_mul_right h1 (le_of_lt hU)
  have hlast : -1 ≤ max 1 m - S := by
    have hmax : (m : ℚ) ≤ ((max 1 m : ℤ) : ℚ) := by
      exact_mod_cast le_max_right 1 m
    have hcast : (-2 : ℚ) < ((max 1 m : ℤ) : ℚ) - (S : ℚ) := by linarith
    have h2 : (-2 : ℤ) < max 1 m - S := by exact_mod_cast hcast
    omega
  refine ⟨(allocateUnits unitSize 0 needs.dropLast).map fun u : ℤ => (u : ℚ) * unitSize,
    ((pyRound (rt / unitSize) - S : ℤ) : ℚ) * unitSize, ?_, ?_, ?_⟩
  · unfold distributeRoundedQuantityAcrossTrips
    rw [hne']
    simp only [Bool.false_eq_true, if_false, ← hneeds, ← hS, List.map_append, List.map_cons,
      List.map_nil]
  · intro q hq
    obtain ⟨u, hu, rfl⟩ := List.mem_map.mp hq
    exact mul_nonneg (by exact_mod_cast allocateUnits_nonneg unitSize hU _ _ u hu)
      (le_of_lt hU)
  · have hpy : pyRound (rt / unitSize) = max 1 m := by
      rw [hrtU, pyRound_intCast]
    rw [hpy]
    have hfin : ((-1 : ℤ) : ℚ) * unitSize ≤ ((max 1 m - S : ℤ) : ℚ) * unitSize := by
      apply mul_le_mul_of_nonneg_right _ (le_of_lt hU)
      exact_mod_cast hlast
    calc -unitSize = ((-1 : ℤ) : ℚ) * unitSize := by push_cast; ring
      _ ≤ _ := hfin

/-- Claim C3, counterexample: the needs `[81, 1]` with unit size 40 are
non-negative and give `rounded_total = 80` under the Package Rounder's own
formula, yet the Trip Distributor allocates `-40` to the final trip. -/
theorem lastTrip_negative_example :
    (∀ p ∈ ([(0, 81), (1, 1)] : List (ℕ × ℚ)), 0 ≤ p.2) ∧
    packageRound 40 ((([(0, 81), (1, 1)] : List (ℕ × ℚ)).map Prod.snd).sum) = 80 ∧
    distributeRoundedQuantityAcrossTrips 80 40 [(0, 81), (1, 1)] = [120, -40] ∧
    (-40 : ℚ) < 0 := by
  refine ⟨by norm_num, ?_, ?_, by norm_num⟩
  · norm_num [packageRound, pyRound, -Int.self_sub_floor]
  · norm_num [distributeRoundedQuantityAcrossTrips, sortByTripIndex, insertByTripIndex,
      allocateUnits, pyRound, intCeil_eq_neg_floor, -Int.self_sub_floor]

/-- Witness for `lastTrip_lower_bound` at the counterexample's inputs. -/
theorem lastTrip_lower_bound_witness :
    ∃ initAllocs lastAlloc,
      distributeRoundedQuantityAcrossTrips
          (packageRound 40 ((([(0, 81), (1, 1)] : List (ℕ × ℚ)).map Prod.snd).sum)) 40
          [(0, 81), (1, 1)]
        = initAllocs ++ [lastAlloc] ∧
      (∀ q ∈ initAllocs, 0 ≤ q) ∧ -(40 : ℚ) ≤ lastAlloc :=
  lastTrip_lower_bound 40 [(0, 81), (1, 1)] (by simp) (by norm_num)
    (by norm_num) _ rfl

/-- Witness for `distribute_exactness`, on the spec's own three-trip example
(needs 300/200/1100, unit size 1000, rounded total 2000, allocations
`[1000, 0, 1000]`). -/
theorem distribute_exactness_witness :
    distributeRoundedQuantityAcrossTrips 2000 1000 [(0, 300), (1, 200), (2, 1100)]
        = [1000, 0, 1000] ∧
    (distributeRoundedQuantityAcrossTrips 2000 1000 [(0, 300), (1, 200), (2, 1100)]).length = 3 ∧
    (∀ q ∈ distributeRoundedQuantityAcrossTrips 2000 1000 [(0, 300), (1, 200), (2, 1100)],
      ∃ m : ℤ, q = (m : ℚ) * 1000) ∧
    (distributeRoundedQuantityAcrossTrips 2000 1000 [(0, 300), (1, 200), (2, 1100)]).sum
        = 2000 := by
  have h := distribute_exactness 2000 1000 [(0, 300), (1, 200), (2, 1100)] (by simp)
    (by norm_num) 2 (by norm_num)
  refine ⟨?_, h.1, h.2.1, h.2.2⟩
  norm_num [distributeRoundedQuantityAcrossTrips, sortByTripIndex, insertByTripIndex,
    allocateUnits, pyRound, intCeil_eq_neg_floor, -Int.self_sub_floor]

/-- Claim C5: for a positive package unit size the rounded total is the
`max(unit_size, round(total/unit_size)*unit_size)` formula, hence a positive
integer multiple of the unit size and never zero; and the rounding loop leaves
an ingredient whose catalog entry has no unit size completely untouched. -/
theorem package_rounding_floor :
    (∀ unitSize originalTotal : ℚ, 0 < unitSize →
      packageRound unitSize originalTotal
          = max unitSize ((pyRound (originalTotal / unitSize) : ℚ) * unitSize) ∧
      (∃ k : ℤ, 0 < k ∧ packageRound unitSize originalTotal = (k : ℚ) * unitSize) ∧
      packageRound unitSize originalTotal ≠ 0) ∧
    (∀ (ingredientDetails : List (String × IngredientDetails)) (config : TaskConfig)
        (tripNeeds : List (String × List (ℕ × ℚ))) (st : PipelineState)
        (item : String × AggData),
      (detailsOf ingredientDetails item.1).unitSize = none →
      roundStep ingredientDetails config tripNeeds st item = some st) := by
  constructor
  · intro unitSize originalTotal hU
    set m := pyRound (originalTotal / unitSize) with hm
    have hform : packageRound unitSize originalTotal = ((max 1 m : ℤ) : ℚ) * unitSize := by
      rw [packageRound, ← hm]
      push_cast
      rw [max_mul_of_nonneg _ _ (le_of_lt hU), one_mul]
    have hkpos : (0 : ℤ) < max 1 m := lt_of_lt_of_le one_pos (le_max_left 1 m)
    refine ⟨rfl, ⟨max 1 m, hkpos, hform⟩, ?_⟩
    rw [hform]
    have : (0 : ℚ) < ((max 1 m : ℤ) : ℚ) * unitSize :=
      mul_pos (by exact_mod_cast hkpos) hU
    exact ne_of_gt this
  · intro ingredientDetails config tripNeeds st item hnone
    rw [roundStep, hnone]

/-- Witness for `package_rounding_floor`: original total 15 with unit size 40
rounds to 40, a positive multiple of 40. -/
theorem package_rounding_floor_witness :
    packageRound 40 15 = 40 ∧
    (∃ k : ℤ, 0 < k ∧ packageRound 40 15 = (k : ℚ) * 40) ∧ packageRound 40 15 ≠ 0 := by
  refine ⟨by norm_num [packageRound, pyRound, -Int.self_sub_floor], ?_, ?_⟩
  · exact (package_rounding_floor.1 40 15 (by norm_num)).2.1
  · exact (package_rounding_floor.1 40 15 (by norm_num)).2.2

/-- Claim C7 (amended): whenever `generate_rounding_warning` returns — that
is, no suggestion search raised `ZeroDivisionError` — a warning is returned
iff the original total is non-zero and the relative change
`|rounded - original| / original` exceeds one half; an original of 0 never
warns (and never raises, as the zero guard runs before any division); on the
spec's example (25 rounded to 40, unit size 40, one meal) the warning exists,
has `percent_change > 0.5`, and lists at least one meal. -/
theorem warning_iff_threshold :
    (∀ (ingredientName : String) (originalTotal roundedTotal unitSize : ℚ) (plan : MealPlan)
        (res : Option RoundingWarning),
      generateRoundingWarning ingredientName originalTotal roundedTotal unitSize plan
          = some res →
      (res.isSome ↔ originalTotal ≠ 0 ∧
        1/2 < |roundedTotal - originalTotal| / originalTotal)) ∧
    (∀ (ingredientName : String) (roundedTotal unitSize : ℚ) (plan : MealPlan),
      generateRoundingWarning ingredientName 0 roundedTotal unitSize plan = some none) ∧
    (∃ w, generateRoundingWarning "x" 25 40 40 wPlan = some (some w) ∧
      1/2 < w.percentChange ∧ 1 ≤ w.meals.length) := by
  refine ⟨?_, ?_, ?_⟩
  · intro ingredientName originalTotal roundedTotal unitSize plan res hres
    rw [generateRoundingWarning] at hres
    by_cases h0 : originalTotal = 0
    · rw [if_pos h0] at hres
      injection hres with hres
      subst hres
      simp [h0]
    · rw [if_neg h0] at hres
      by_cases hr : 1/2 < |roundedTotal - originalTotal| / originalTotal
      · rw [if_pos hr] at hres
        cases hms : mealScan ingredientName unitSize plan.meals with
        | none => rw [hms] at hres; exact absurd hres (by simp)
        | some qi =>
          simp only [hms] at hres
          cases hcs : (if 1 < qi.1.length then combinedSearch unitSize qi.1 [1, 2, 3, 4, 5]
              else some 0) with
          | none => rw [hcs] at hres; exact absurd hres (by simp)
          | some ci =>
            simp only [hcs] at hres
            injection hres with hres
            subst hres
            exact iff_of_true rfl ⟨h0, hr⟩
      · rw [if_neg hr] at hres
        injection hres with hres
        subst hres
        exact iff_of_false (by simp) fun hc => hr hc.2
  · intro ingredientName roundedTotal unitSize plan
    rw [generateRoundingWarning, if_pos rfl]
  · refine ⟨⟨"x", 25, 40, 3/5, [⟨"mw", 1, 1⟩], 0, 40⟩, ?_, by norm_num, by norm_num⟩
    norm_num +decide [generateRoundingWarning, mealScan, currentPortionsOf, suggestedSearch,
      perMealTestTotal, perMealOk, combinedTestTotal, combinedOk, combinedSearch, wPlan, wMeal,
      pyRound, List.find?, intCeil_eq_neg_floor, -Int.self_sub_floor]

/-- Claim C7, counterexample: a plan-wide original of 25 rounded to 40 (unit
size 40, 60% change) where one of the meals holds 0 units of the ingredient —
the per-meal suggestion search divides by a zero test total, so the source
raises `ZeroDivisionError` and no warning is returned, although the claim's
threshold condition holds. -/
theorem warning_crash_example :
    generateRoundingWarning "x" 25 40 40 zPlan = none ∧
    (25 : ℚ) ≠ 0 ∧ 1/2 < |(40 : ℚ) - 25| / 25 := by
  refine ⟨?_, by norm_num, by norm_num⟩
  norm_num +decide [generateRoundingWarning, mealScan, currentPortionsOf, suggestedSearch,
    perMealTestTotal, perMealOk, combinedTestTotal, combinedOk, combinedSearch, zPlan, zMeal,
    wMeal, pyRound, List.find?, intCeil_eq_neg_floor, -Int.self_sub_floor]

/-- Witness for `warning_iff_threshold` at the spec's 25-to-40 example. -/
theorem warning_iff_threshold_witness :
    (Option.some (⟨"x", 25, 40, 3/5, [⟨"mw", 1, 1⟩], 0, 40⟩ : RoundingWarning)).isSome
      ↔ (25 : ℚ) ≠ 0 ∧ 1/2 < |(40 : ℚ) - 25| / 25 :=
  warning_iff_threshold.1 "x" 25 40 40 wPlan
    (some ⟨"x", 25, 40, 3/5, [⟨"mw", 1, 1⟩], 0, 40⟩)
    (by norm_num +decide [generateRoundingWarning, mealScan, currentPortionsOf, suggestedSearch,
      perMealTestTotal, perMealOk, combinedTestTotal, combinedOk, combinedSearch, wPlan, wMeal,
      pyRound, List.find?, intCeil_eq_neg_floor, -Int.self_sub_floor])

/-- Claim C8 (amended): the `combined_increase` of an emitted warning is the
smallest value in 1..5 whose simultaneous portion increase brings the plan-wide
rounding error at or below 50% — but only when more than one meal uses the
ingredient; when at most one meal does, the searched loop is skipped and the
field is always 0.  (And the search can fail to return at all: a zero combined
test total raises `ZeroDivisionError`, in which case no warning is emitted.) -/
theorem combined_increase_characterization (ingredientName : String)
    (originalTotal roundedTotal unitSize : ℚ) (plan : MealPlan) (w : RoundingWarning)
    (mqs : List MealQty) (mis : List MealWarnInfo)
    (hgen : generateRoundingWarning ingredientName originalTotal roundedTotal unitSize plan
        = some (some w))
    (hscan : mealScan ingredientName unitSize plan.meals = some (mqs, mis)) :
    (mqs.length ≤ 1 → w.combinedIncrease = 0) ∧
    (1 < mqs.length →
      (w.combinedIncrease = 0 ∧ ∀ k ∈ ([1, 2, 3, 4, 5] : List ℤ),
          combinedOk unitSize mqs k = false) ∨
      (w.combinedIncrease ∈ ([1, 2, 3, 4, 5] : List ℤ) ∧
        combinedOk unitSize mqs w.combinedIncrease = true ∧
        ∀ j ∈ ([1, 2, 3, 4, 5] : List ℤ), j < w.combinedIncrease →
          combinedOk unitSize mqs j = false)) := by
  rw [generateRoundingWarning] at hgen
  by_cases h0 : originalTotal = 0
  · rw [if_pos h0] at hgen
    exact absurd hgen (by simp)
  · rw [if_neg h0] at hgen
    by_cases hr : 1/2 < |roundedTotal - originalTotal| / originalTotal
    · rw [if_pos hr] at hgen
      simp only [hscan] at hgen
      cases hcs : (if 1 < mqs.length then combinedSearch unitSize mqs [1, 2, 3, 4, 5]
          else some 0) with
      | none => rw [hcs] at hgen; exact absurd hgen (by simp)
      | some ci =>
        simp only [hcs] at hgen
        injection hgen with hgen
        injection hgen with hgen
        subst hgen
        by_cases hlen : 1 < mqs.length
        · rw [if_pos hlen] at hcs
          constructor
          · intro hle
            omega
          · intro _
            have hspec := combinedSearch_spec unitSize mqs [1, 2, 3, 4, 5] (by decide) ci hcs
            simpa using hspec
        · rw [if_neg hlen] at hcs
          injection hcs with hcs
          constructor
          · intro _
            simp [← hcs]
          · intro hgt
            exact absurd hgt hlen
    · rw [if_neg hr] at hgen
      exact absurd hgen (by simp)

/-- Claim C8, counterexample: on a single-meal plan (25 units rounded to 40,
unit size 40) the smallest qualifying increase in 1..5 exists — adding one
portion brings the error to 20% — yet the emitted `combined_increase` is 0,
because the search only runs when more than one meal uses the ingredient. -/
theorem combined_increase_single_meal_zero :
    (generateRoundingWarning "x" 25 40 40 wPlan).map
        (Option.map RoundingWarning.combinedIncrease) = some (some 0) ∧
    mealScan "x" 40 wPlan.meals = some ([⟨"mw", 1, 25, 25⟩], [⟨"mw", 1, 1⟩]) ∧
    combinedOk 40 [⟨"mw", 1, 25, 25⟩] 1 = true ∧ (0 : ℤ) ≠ 1 := by
  refine ⟨?_, ?_, ?_, by norm_num⟩ <;>
    norm_num +decide [generateRoundingWarning, mealScan, currentPortionsOf, suggestedSearch,
      perMealTestTotal, perMealOk, combinedTestTotal, combinedOk, combinedSearch, wPlan, wMeal,
      pyRound, List.find?, intCeil_eq_neg_floor, -Int.self_sub_floor]

/-- Witness for `combined_increase_characterization` on a two-meal plan where
the warning's combined increase is 1. -/
theorem combined_increase_characterization_witness :
    (([⟨"me1", 1, 12, 12⟩, ⟨"me2", 1, 13, 13⟩] : List MealQty).length ≤ 1 → (1 : ℤ) = 0) ∧
    (1 < ([⟨"me1", 1, 12, 12⟩, ⟨"me2", 1, 13, 13⟩] : List MealQty).length →
      ((1 : ℤ) = 0 ∧ ∀ k ∈ ([1, 2, 3, 4, 5] : List ℤ),
          combinedOk 40 [⟨"me1", 1, 12, 12⟩, ⟨"me2", 1, 13, 13⟩] k = false) ∨
      ((1 : ℤ) ∈ ([1, 2, 3, 4, 5] : List ℤ) ∧
        combinedOk 40 ([⟨"me1", 1, 12, 12⟩, ⟨"me2", 1, 13, 13⟩] : List MealQty) 1 = true ∧
        ∀ j ∈ ([1, 2, 3, 4, 5] : List ℤ), j < 1 →
          combinedOk 40 [⟨"me1", 1, 12, 12⟩, ⟨"me2", 1, 13, 13⟩] j = false)) :=
  combined_increase_characterization "x" 25 40 40 c8plan
    ⟨"x", 25, 40, 3/5, [⟨"me1", 1, 2⟩, ⟨"me2", 1, 2⟩], 1, 40⟩
    [⟨"me1", 1, 12, 12⟩, ⟨"me2", 1, 13, 13⟩] [⟨"me1", 1, 2⟩, ⟨"me2", 1, 2⟩]
    (by norm_num +decide [generateRoundingWarning, mealScan, currentPortionsOf, suggestedSearch,
      perMealTestTotal, perMealOk, combinedTestTotal, combinedOk, combinedSearch, c8plan, c8m1,
      c8m2, pyRound, List.find?, intCeil_eq_neg_floor, -Int.self_sub_floor])
    (by norm_num +decide [mealScan, currentPortionsOf, suggestedSearch, perMealTestTotal,
      perMealOk, c8plan, c8m1, c8m2, pyRound, List.find?, intCeil_eq_neg_floor,
      -Int.self_sub_floor])

/-- Claim C4 (amended): the expanded per-person quantity is
`round(base_quantity * base_servings.get(profile, 1.0) * portions)` — the
serving multiplier is the recipe-level `base_servings` entry alone, with no
ingredient-level override consulted. -/
theorem expansion_uses_recipe_level_multiplier (config : TaskConfig) (recipe : Recipe)
    (ing : BaseIngredient) :
    ∀ (servings : List (String × ℕ)) (t : ℤ) (pp : List (String × PersonData))
      (person : String) (n : ℕ) (dietProfile : String) (pd : PersonData),
      expandIngredientAux config recipe ing servings = some (t, pp) →
      alookup person servings = some n →
      0 < n →
      alookup person config.dietProfiles = some dietProfile →
      alookup person pp = some pd →
      pd.quantity
          = pyRound (ing.quantity * ((alookup dietProfile recipe.baseServings).getD 1) * (n : ℚ))
        ∧ pd.portions = n := by
  intro servings
  induction servings with
  | nil =>
    intro t pp person n dietProfile pd _ hserv
    simp [alookup] at hserv
  | cons e rest ih =>
    obtain ⟨p', m⟩ := e
    intro t pp person n dietProfile pd haux hserv hn hprof hpd
    rw [alookup] at hserv
    rw [expandIngredientAux] at haux
    by_cases hpe : p' = person
    · subst hpe
      rw [if_pos rfl] at hserv
      injection hserv with hserv
      subst hserv
      rw [if_pos hn, hprof] at haux
      cases hrest : expandIngredientAux config recipe ing rest with
      | none => rw [hrest] at haux; exact absurd haux (by simp)
      | some tp =>
        obtain ⟨t', pp'⟩ := tp
        rw [hrest] at haux
        injection haux with haux
        injection haux with haux1 haux2
        subst haux2
        rw [alookup, if_pos rfl] at hpd
        injection hpd with hpd
        subst hpd
        exact ⟨rfl, rfl⟩
    · rw [if_neg hpe] at hserv
      by_cases hm : 0 < m
      · rw [if_pos hm] at haux
        cases hprof' : alookup p' config.dietProfiles with
        | none => rw [hprof'] at haux; exact absurd haux (by simp)
        | some prof' =>
          rw [hprof'] at haux
          cases hrest : expandIngredientAux config recipe ing rest with
          | none => rw [hrest] at haux; exact absurd haux (by simp)
          | some tp =>
            obtain ⟨t', pp'⟩ := tp
            rw [hrest] at haux
            injection haux with haux
            injection haux with haux1 haux2
            subst haux2
            rw [alookup, if_neg hpe] at hpd
            exact ih t' pp' person n dietProfile pd hrest hserv hn hprof hpd
      · rw [if_neg hm] at haux
        exact ih t pp person n dietProfile pd haux hserv hn hprof hpd

/-- Claim C4, counterexample: with recipe-level multiplier 2 and an
ingredient-level override of 3 for the same profile, the code expands
10 units x 1 portion to 20, while the spec's override-preferring multiplier
demands 30. -/
theorem ingredient_override_ignored :
    expandIngredientAux ovConfig ovRecipe ovIng [("A", 1)]
        = some (20, [("A", ⟨20, "g", 1⟩)]) ∧
    specServingMultiplier ovRecipe ovIng "profA" = 3 ∧
    pyRound (ovIng.quantity * specServingMultiplier ovRecipe ovIng "profA" * 1) = 30 ∧
    (20 : ℤ) ≠ 30 := by
  refine ⟨?_, ?_, ?_, by norm_num⟩
  · norm_num +decide [expandIngredientAux, ovConfig, ovRecipe, ovIng, alookup, pyRound,
      -Int.self_sub_floor]
  · norm_num +decide [specServingMultiplier, ovRecipe, ovIng, alookup]
  · norm_num +decide [specServingMultiplier, ovRecipe, ovIng, alookup, pyRound,
      -Int.self_sub_floor]

/-- Witness for `expansion_uses_recipe_level_multiplier` at the override
counterexample: the expanded quantity follows the recipe-level multiplier 2. -/
theorem expansion_uses_recipe_level_multiplier_witness :
    (⟨20, "g", 1⟩ : PersonData).quantity
        = pyRound (ovIng.quantity * ((alookup "profA" ovRecipe.baseServings).getD 1) * ((1 : ℕ) : ℚ))
      ∧ (⟨20, "g", 1⟩ : PersonData).portions = 1 :=
  expansion_uses_recipe_level_multiplier ovConfig ovRecipe ovIng [("A", 1)] 20
    [("A", ⟨20, "g", 1⟩)] "A" 1 "profA" ⟨20, "g", 1⟩
    (by norm_num +decide [expandIngredientAux, ovConfig, ovRecipe, ovIng, alookup, pyRound,
      -Int.self_sub_floor])
    (by norm_num +decide [alookup]) (by norm_num)
    (by norm_num +decide [ovConfig, alookup]) (by norm_num +decide [alookup])

theorem filter_map_eq_of_fix {α : Type} (p : α → Bool) (g : α → α)
    (hfix : ∀ x, p x = true → g x = x) (hpres : ∀ x, p (g x) = p x) :
    ∀ l : List α, (l.map g).filter p = l.filter p := by
  intro l
  induction l with
  | nil => rfl
  | cons x xs ih =>
    simp only [List.map_cons, List.filter_cons, hpres x]
    cases hx : p x with
    | true => rw [hfix x hx, ih]
    | false => exact ih

theorem mem_adjustableNames_isAdjustable
    {ingredientDetails : List (String × IngredientDetails)}
    {aggregated : List (String × AggData)} {name : String}
    (h : name ∈ adjustableNames ingredientDetails aggregated) :
    isAdjustable ingredientDetails name = true := by
  obtain ⟨e, he, heq⟩ := List.mem_map.mp h
  rw [← heq]
  exact (List.mem_filter.mp he).2

theorem adjustMeal_filter_eq (config : TaskConfig) (adjNames : List String)
    (factors : List (String × ℚ)) (name : String) (hname : name ∉ adjNames) (meal : Meal) :
    (adjustMealIngredients config adjNames factors meal).ingredients.filter
        (fun ing => ing.name == name)
      = meal.ingredients.filter fun ing => ing.name == name := by
  rw [adjustMealIngredients]
  apply filter_map_eq_of_fix
  · intro x hx
    have hxn : x.name = name := by simpa using hx
    rw [if_neg (by rw [hxn]; exact hname)]
  · intro x
    by_cases hmem : x.name ∈ adjNames
    · rw [if_pos hmem]
    · rw [if_neg hmem]

theorem map_foldl_updateLastBy {β : Type} (f : Meal → Meal) (h : Meal → β)
    (hf : ∀ m, h (f m) = h m) :
    ∀ (ids : List String) (ms : List Meal),
      (ids.foldl (fun ms mid => updateLastBy Meal.id mid f ms) ms).map h = ms.map h := by
  intro ids
  induction ids with
  | nil => intro ms; rfl
  | cons i rest ih =>
    intro ms
    simp only [List.foldl_cons]
    rw [ih, map_updateLastBy Meal.id i f h hf]

/-- Claim C6: calorie compensation never touches an ingredient that is
non-adjustable or package-constrained — its aggregated entry and every meal
occurrence (total quantity and per-person breakdown alike) are unchanged. -/
theorem compensation_frame (ingredientDetails : List (String × IngredientDetails))
    (config : TaskConfig) (aggregated : List (String × AggData))
    (calorieDeltaPerProfile : List (String × ℚ)) (plan : MealPlan) (name : String)
    (hadj : isAdjustable ingredientDetails name = false) :
    alookup name (compensateCaloriesPerProfile ingredientDetails config aggregated
        calorieDeltaPerProfile plan).1 = alookup name aggregated ∧
    ((compensateCaloriesPerProfile ingredientDetails config aggregated
        calorieDeltaPerProfile plan).2).meals.map
        (fun m => m.ingredients.filter fun ing => ing.name == name)
      = plan.meals.map fun m => m.ingredients.filter fun ing => ing.name == name := by
  have hnot : name ∉ adjustableNames ingredientDetails aggregated := by
    intro hmem
    rw [mem_adjustableNames_isAdjustable hmem] at hadj
    exact absurd hadj (by simp)
  simp only [compensateCaloriesPerProfile]
  by_cases hemp : (adjustableNames ingredientDetails aggregated).isEmpty
  · rw [if_pos hemp]
    exact ⟨rfl, rfl⟩
  · rw [if_neg hemp]
    dsimp only
    constructor
    · rw [alookup_map (fun n d =>
        if n ∈ adjustableNames ingredientDetails aggregated then
          let newPP := d.perPersonTotals.map fun pr =>
            (pr.1, { pr.2 with
              quantity := pyRound ((pr.2.quantity : ℚ) *
                factorFor config (adjustmentFactors ingredientDetails config aggregated
                  calorieDeltaPerProfile) pr.1) })
          { d with
            perPersonTotals := newPP
            totalQty := ((newPP.map fun pr => pr.2.quantity).sum : ℚ) }
        else d) name aggregated]
      cases alookup name aggregated with
      | none => rfl
      | some d =>
        simp only [Option.map_some']
        rw [if_neg hnot]
    · by_cases htrips : plan.shoppingTrips.isEmpty
      · rw [if_pos htrips]
        simp only [List.map_map]
        apply List.map_congr_left
        intro m _
        exact adjustMeal_filter_eq config _ _ name hnot m
      · rw [if_neg htrips]
        exact map_foldl_updateLastBy _ _
          (fun m => adjustMeal_filter_eq config _ _ name hnot m) _ _

/-- Witness for `compensation_frame`: compensation with a 100 kcal delta leaves
the non-adjustable `rock` untouched in both structures. -/
theorem compensation_frame_witness :
    alookup "rock" (compensateCaloriesPerProfile frameDetails frameConfig frameAgg frameDeltas
        framePlan).1 = alookup "rock" frameAgg ∧
    ((compensateCaloriesPerProfile frameDetails frameConfig frameAgg frameDeltas
        framePlan).2).meals.map
        (fun m => m.ingredients.filter fun ing => ing.name == "rock")
      = framePlan.meals.map fun m => m.ingredients.filter fun ing => ing.name == "rock" :=
  compensation_frame frameDetails frameConfig frameAgg frameDeltas framePlan "rock"
    (by norm_num +decide [isAdjustable, detailsOf, unitSizeTruthy, alookup, frameDetails])

/-- Claim C10: an ingredient with no catalog entry, or whose entry lacks the
`adjustable` flag and a unit size, is treated as adjustable; such an
ingredient present in the aggregate joins the adjustable list and has each
per-person quantity multiplied by the profile's adjustment factor (rounded),
with the total recomputed as the sum. -/
theorem missing_catalog_defaults_adjustable :
    (∀ (ingredientDetails : List (String × IngredientDetails)) (name : String),
      alookup name ingredientDetails = none → isAdjustable ingredientDetails name = true) ∧
    (∀ (ingredientDetails : List (String × IngredientDetails)) (name : String)
        (d : IngredientDetails),
      alookup name ingredientDetails = some d → d.adjustable = none → d.unitSize = none →
      isAdjustable ingredientDetails name = true) ∧
    (∀ (ingredientDetails : List (String × IngredientDetails))
        (aggregated : List (String × AggData)) (name : String) (data : AggData),
      alookup name aggregated = some data → isAdjustable ingredientDetails name = true →
      name ∈ adjustableNames ingredientDetails aggregated) ∧
    (∀ (ingredientDetails : List (String × IngredientDetails)) (config : TaskConfig)
        (aggregated : List (String × AggData)) (calorieDeltaPerProfile : List (String × ℚ))
        (plan : MealPlan) (name : String) (data : AggData),
      alookup name aggregated = some data → isAdjustable ingredientDetails name = true →
      alookup name (compensateCaloriesPerProfile ingredientDetails config aggregated
          calorieDeltaPerProfile plan).1
        = some (
            let factors := adjustmentFactors ingredientDetails config aggregated
              calorieDeltaPerProfile
            let newPP := data.perPersonTotals.map fun pr =>
              (pr.1, { pr.2 with
                quantity := pyRound ((pr.2.quantity : ℚ) * factorFor config factors pr.1) })
            { data with
              perPersonTotals := newPP
              totalQty := ((newPP.map fun pr => pr.2.quantity).sum : ℚ) })) := by
  refine ⟨?_, ?_, ?_, ?_⟩
  · intro ingredientDetails name h
    simp [isAdjustable, detailsOf, h, unitSizeTruthy]
  · intro ingredientDetails name d h hadj hunit
    simp [isAdjustable, detailsOf, h, hadj, hunit, unitSizeTruthy]
  · intro ingredientDetails aggregated name data hl hadj
    refine List.mem_map.mpr ⟨(name, data), ?_, rfl⟩
    exact List.mem_filter.mpr ⟨alookup_mem hl, hadj⟩
  · intro ingredientDetails config aggregated calorieDeltaPerProfile plan name data hl hadj
    have hmem : name ∈ adjustableNames ingredientDetails aggregated :=
      List.mem_map.mpr ⟨(name, data), List.mem_filter.mpr ⟨alookup_mem hl, hadj⟩, rfl⟩
    have hne : (adjustableNames ingredientDetails aggregated).isEmpty = false := by
      cases hadjl : adjustableNames ingredientDetails aggregated with
      | nil => rw [hadjl] at hmem; simp at hmem
      | cons a l => rfl
    simp only [compensateCaloriesPerProfile]
    rw [hne]
    simp only [Bool.false_eq_true, if_false]
    rw [alookup_map (fun n d =>
      if n ∈ adjustableNames ingredientDetails aggregated then
        let newPP := d.perPersonTotals.map fun pr =>
          (pr.1, { pr.2 with
            quantity := pyRound ((pr.2.quantity : ℚ) *
              factorFor config (adjustmentFactors ingredientDetails config aggregated
                calorieDeltaPerProfile) pr.1) })
        { d with
          perPersonTotals := newPP
          totalQty := ((newPP.map fun pr => pr.2.quantity).sum : ℚ) }
      else d) name aggregated]
    rw [hl]
    simp only [Option.map_some']
    rw [if_pos hmem]

/-- Witness for `missing_catalog_defaults_adjustable`: the catalog-less,
0-calorie `mystery` ingredient is adjustable, joins the adjustable list, and
its per-person quantity 100 is halved to 50 by the profile factor
`(200 - 100) / 200`. -/
theorem missing_catalog_defaults_adjustable_witness :
    isAdjustable riceDetails "mystery" = true ∧
    "mystery" ∈ adjustableNames riceDetails mysteryAggList ∧
    (alookup "mystery" (compensateCaloriesPerProfile riceDetails frameConfig mysteryAggList
        frameDeltas emptyPlan).1).map AggData.totalQty = some 50 := by
  have h1 : isAdjustable riceDetails "mystery" = true :=
    missing_catalog_defaults_adjustable.1 riceDetails "mystery" (by
      norm_num +decide [alookup, riceDetails])
  have hlook : alookup "mystery" mysteryAggList = some mysteryAgg := by
    norm_num +decide [alookup, mysteryAggList]
  refine ⟨h1, missing_catalog_defaults_adjustable.2.2.1 riceDetails mysteryAggList "mystery"
    mysteryAgg hlook h1, ?_⟩
  rw [missing_catalog_defaults_adjustable.2.2.2 riceDetails frameConfig mysteryAggList
    frameDeltas emptyPlan "mystery" mysteryAgg hlook h1]
  norm_num +decide [mysteryAgg, adjustmentFactors, adjustableCaloriesPerProfile, factorFor,
    profileOf, frameConfig, riceDetails, mysteryAggList, frameAggRice, frameDeltas, alookup,
    aupd, isAdjustable, detailsOf, unitSizeTruthy, pyRound, -Int.self_sub_floor]

theorem expandIngredientAux_sum (config : TaskConfig) (recipe : Recipe) (ing : BaseIngredient) :
    ∀ (servings : List (String × ℕ)) (t : ℤ) (pp : List (String × PersonData)),
      expandIngredientAux config recipe ing servings = some (t, pp) →
      t = (pp.map fun pr => pr.2.quantity).sum := by
  intro servings
  induction servings with
  | nil =>
    intro t pp h
    rw [expandIngredientAux] at h
    injection h with h
    injection h with h1 h2
    subst h1
    subst h2
    rfl
  | cons e rest ih =>
    obtain ⟨p', m⟩ := e
    intro t pp h
    rw [expandIngredientAux] at h
    by_cases hm : 0 < m
    · rw [if_pos hm] at h
      cases hprof : alookup p' config.dietProfiles with
      | none => rw [hprof] at h; exact absurd h (by simp)
      | some prof =>
        rw [hprof] at h
        cases hrest : expandIngredientAux config recipe ing rest with
        | none => rw [hrest] at h; exact absurd h (by simp)
        | some tp =>
          obtain ⟨t', pp'⟩ := tp
          rw [hrest] at h
          injection h with h
          injection h with h1 h2
          subst h1
          subst h2
          simp only [List.map_cons, List.sum_cons]
          rw [← ih t' pp' hrest]
    · rw [if_neg hm] at h
      exact ih t pp h

theorem expandIngredient_conservation (config : TaskConfig) (recipe : Recipe)
    (ing : BaseIngredient) (servings : List (String × ℕ)) (ing' : Ingredient)
    (h : expandIngredient config recipe ing servings = some ing') :
    ing'.quantity = (ing'.perPerson.map fun pr => pr.2.quantity).sum := by
  rw [expandIngredient] at h
  cases haux : expandIngredientAux config recipe ing servings with
  | none => rw [haux] at h; exact absurd h (by simp)
  | some tp =>
    obtain ⟨t, pp⟩ := tp
    rw [haux] at h
    simp only [Option.map_some'] at h
    injection h with h
    subst h
    dsimp only
    rw [← expandIngredientAux_sum config recipe ing servings t pp haux]
    exact pyRound_intCast t

theorem adjustMeal_conserves (config : TaskConfig) (adjNames : List String)
    (factors : List (String × ℚ)) (meal : Meal) :
    ∀ ing ∈ (adjustMealIngredients config adjNames factors meal).ingredients,
      ing.name ∈ adjNames →
      ing.quantity = (ing.perPerson.map fun pr => pr.2.quantity).sum := by
  intro ing hing hname
  simp only [adjustMealIngredients] at hing
  obtain ⟨ing0, _, rfl⟩ := List.mem_map.mp (by simpa using hing)
  by_cases h0 : ing0.name ∈ adjNames
  · rw [if_pos h0]
    simp [List.map_map]
  · rw [if_neg h0] at hname
    exact absurd hname h0

theorem updateLastBy_forall {α : Type} (P : α → Prop) (key : α → String) (k : String)
    (f : α → α) (hf : ∀ y, P (f y)) :
    ∀ l : List α, (∀ x ∈ l, P x) → ∀ x ∈ updateLastBy key k f l, P x := by
  intro l
  induction l with
  | nil =>
    intro _ x hx
    simp only [updateLastBy] at hx
    exact absurd hx (by simp)
  | cons y rest ih =>
    intro hl x hx
    simp only [updateLastBy] at hx
    by_cases hany : rest.any (fun z => key z == k) = true
    · rw [if_pos hany] at hx
      rcases List.mem_cons.mp hx with h | h
      · exact h ▸ hl y (by simp)
      · exact ih (fun z hz => hl z (by simp [hz])) x h
    · rw [if_neg hany] at hx
      by_cases hk : key y = k
      · rw [if_pos hk] at hx
        rcases List.mem_cons.mp hx with h | h
        · exact h ▸ hf y
        · exact hl x (by simp [h])
      · rw [if_neg hk] at hx
        rcases List.mem_cons.mp hx with h | h
        · exact h ▸ hl y (by simp)
        · exact ih (fun z hz => hl z (by simp [hz])) x h

theorem foldl_updateLastBy_forall {α : Type} (P : α → Prop) (key : α → String) (f : α → α)
    (hf : ∀ y, P (f y)) :
    ∀ (ids : List String) (l : List α), (∀ x ∈ l, P x) →
      ∀ x ∈ ids.foldl (fun ms mid => updateLastBy key mid f ms) l, P x := by
  intro ids
  induction ids with
  | nil =>
    intro l hl x hx
    rw [List.foldl_nil] at hx
    exact hl x hx
  | cons i rest ih =>
    intro l hl x hx
    rw [List.foldl_cons] at hx
    exact ih _ (updateLastBy_forall P key i f hf l hl) x hx

/-- Claim C1 (amended): conservation — `total = sum(per-person)` for every
expanded ingredient — holds after expansion; calorie compensation
re-establishes it for every ingredient it adjusts (the total is recomputed as
the sum of the scaled per-person quantities), and consequently — with or
without shopping trips — a plan whose adjustable ingredients conserve still
conserves them after compensation.  Conservation does NOT survive the Trip
Distributor's write-back, where total and per-person shares are rounded
independently — see the counterexample. -/
theorem conservation_after_expansion_and_compensation :
    (∀ (config : TaskConfig) (mealsDb : List Recipe) (rawPlan : RawMealPlan) (plan : MealPlan),
      expandMealPlan config mealsDb rawPlan = some plan →
      ∀ meal ∈ plan.meals, ∀ ing ∈ meal.ingredients,
        ing.quantity = (ing.perPerson.map fun pr => pr.2.quantity).sum) ∧
    (∀ (config : TaskConfig) (adjNames : List String) (factors : List (String × ℚ))
        (meal : Meal),
      ∀ ing ∈ (adjustMealIngredients config adjNames factors meal).ingredients,
        ing.name ∈ adjNames →
        ing.quantity = (ing.perPerson.map fun pr => pr.2.quantity).sum) ∧
    (∀ (ingredientDetails : List (String × IngredientDetails)) (config : TaskConfig)
        (aggregated : List (String × AggData)) (calorieDeltaPerProfile : List (String × ℚ))
        (plan : MealPlan),
      (∀ meal ∈ plan.meals, ∀ ing ∈ meal.ingredients,
        ing.name ∈ adjustableNames ingredientDetails aggregated →
        ing.quantity = (ing.perPerson.map fun pr => pr.2.quantity).sum) →
      ∀ meal ∈ ((compensateCaloriesPerProfile ingredientDetails config aggregated
          calorieDeltaPerProfile plan).2).meals,
        ∀ ing ∈ meal.ingredients,
          ing.name ∈ adjustableNames ingredientDetails aggregated →
          ing.quantity = (ing.perPerson.map fun pr => pr.2.quantity).sum) := by
  refine ⟨?_, ?_, ?_⟩
  · intro config mealsDb rawPlan plan hexp meal hmeal ing hing
    rw [expandMealPlan] at hexp
    cases hmo : mapOption (fun sched =>
        match lookupLastBy Recipe.mealId sched.mealId mealsDb with
        | none => none
        | some recipe => expandMeal config recipe sched) rawPlan.scheduledMeals with
    | none => rw [hmo] at hexp; exact absurd hexp (by simp)
    | some meals =>
      rw [hmo] at hexp
      simp only [Option.map_some'] at hexp
      injection hexp with hexp
      subst hexp
      obtain ⟨sched, _, hf⟩ := mapOption_mem _ hmo meal hmeal
      cases hrec : lookupLastBy Recipe.mealId sched.mealId mealsDb with
      | none => rw [hrec] at hf; exact absurd hf (by simp)
      | some recipe =>
        rw [hrec] at hf
        simp only [expandMeal] at hf
        cases hings : mapOption (fun ing0 => expandIngredient config recipe ing0
            (sched.eatingDatesPerPerson.map fun pr => (pr.1, pr.2.length)))
            recipe.ingredients with
        | none => rw [hings] at hf; exact absurd hf (by simp)
        | some ings =>
          rw [hings] at hf
          simp only [Option.map_some'] at hf
          injection hf with hf
          subst hf
          obtain ⟨base, _, hbi⟩ := mapOption_mem _ hings ing (by simpa using hing)
          exact expandIngredient_conservation _ _ _ _ _ hbi
  · intro config adjNames factors meal
    exact adjustMeal_conserves config adjNames factors meal
  · intro ingredientDetails config aggregated calorieDeltaPerProfile plan hinput meal hmeal
      ing hing hname
    simp only [compensateCaloriesPerProfile] at hmeal
    by_cases hemp : (adjustableNames ingredientDetails aggregated).isEmpty
    · have hnil : adjustableNames ingredientDetails aggregated = [] := by
        cases hadjl : adjustableNames ingredientDetails aggregated with
        | nil => rfl
        | cons a l => rw [hadjl] at hemp; exact absurd hemp (by simp)
      rw [hnil] at hname
      exact absurd hname (by simp)
    · rw [if_neg hemp] at hmeal
      dsimp only at hmeal
      by_cases htr : plan.shoppingTrips.isEmpty = true
      · rw [if_pos htr] at hmeal
        obtain ⟨m0, _, rfl⟩ := List.mem_map.mp hmeal
        exact adjustMeal_conserves config _ _ m0 ing hing hname
      · rw [if_neg htr] at hmeal
        exact foldl_updateLastBy_forall
          (fun m => ∀ i ∈ m.ingredients,
            i.name ∈ adjustableNames ingredientDetails aggregated →
            i.quantity = (i.perPerson.map fun pr => pr.2.quantity).sum)
          Meal.id
          (adjustMealIngredients config (adjustableNames ingredientDetails aggregated)
            (adjustmentFactors ingredientDetails config aggregated calorieDeltaPerProfile))
          (fun y => adjustMeal_conserves config _ _ y)
          (plan.shoppingTrips.foldl (fun ids trip => ids ++ trip.scheduledMealIds) [])
          plan.meals hinput meal hmeal ing hing hname

/-- Claim C1, counterexample: after the Trip Distributor writes the rounded
total back (3 rounded up to one 40-unit package), the ingredient's total is 40
but its per-person quantities are 13+13+13 = 39 — conservation is broken at
this pipeline stage (and the zero-calorie delta means compensation never runs
to repair anything). -/
theorem conservation_fails_after_distribution :
    (roundAndDistributeIngredients cDetails cConfig cPlan).map
        (fun st => st.plan.meals.map Meal.ingredients)
        = some [[⟨"x", 40, "g", "veg",
            [("A", ⟨13, "g", 1⟩), ("B", ⟨13, "g", 1⟩), ("C", ⟨13, "g", 1⟩)]⟩]] ∧
    (40 : ℤ) ≠ 13 + 13 + 13 := by
  constructor
  · norm_num +decide [roundAndDistributeIngredients, aggregateIngredientsAcrossTrips,
      tripIngredientsOf, addIngredientToTrip, addTripToAggregates, lookupMealLast, lookupLastBy,
      aupd, alookup, cPlan, cMeal, cConfig, cDetails, roundStep, detailsOf, packageRound,
      pyRound, generateRoundingWarning, mealScan, currentPortionsOf, suggestedSearch,
      perMealTestTotal, perMealOk, combinedTestTotal, combinedOk, combinedSearch, profileOf,
      distributeRoundedQuantityAcrossTrips, sortByTripIndex, insertByTripIndex, allocateUnits,
      writeBackMeal, writeBackIngredientAt, tripIngredientTotal, updateLastBy,
      compensateCaloriesPerProfile, adjustableNames, isAdjustable, unitSizeTruthy,
      List.find?, intCeil_eq_neg_floor, List.range_succ, List.range_zero, -Int.self_sub_floor]
  · norm_num

/-- Witness for `conservation_after_expansion_and_compensation`: conservation
of the concrete expansion (20 = 20) and, through the preservation part on a
plan reached via a shopping trip, of the compensated adjustable `rice` after
the 100 kcal compensation (100 = 100). -/
theorem conservation_witness :
    exIng.quantity = (exIng.perPerson.map fun pr => pr.2.quantity).sum ∧
    (⟨"rice", 100, "g", "c", [("A", ⟨100, "g", 1⟩)]⟩ : Ingredient).quantity
      = ((⟨"rice", 100, "g", "c", [("A", ⟨100, "g", 1⟩)]⟩ : Ingredient).perPerson.map
          fun pr => pr.2.quantity).sum := by
  constructor
  · refine conservation_after_expansion_and_compensation.1 exConfig [exRecipe] exRaw exPlan
      ?_ exMeal (by simp [exPlan]) exIng (by simp [exMeal])
    norm_num +decide [expandMealPlan, expandMeal, expandIngredient, expandIngredientAux,
      mapOption, lookupLastBy, alookup, exConfig, exRecipe, exIngBase, exRaw, exPlan, exMeal,
      exIng, pyRound, -Int.self_sub_floor]
  · refine conservation_after_expansion_and_compensation.2.2 frameDetails frameConfig frameAgg
      frameDeltas framePlanTrips ?_
      ⟨"m", "r", "mname", [("A", ["d1"])],
        [⟨"rock", 100, "g", "c", [("A", ⟨100, "g", 1⟩)]⟩,
         ⟨"rice", 100, "g", "c", [("A", ⟨100, "g", 1⟩)]⟩]⟩ ?_
      ⟨"rice", 100, "g", "c", [("A", ⟨100, "g", 1⟩)]⟩ (by simp) ?_
    · intro meal hmeal ing hing _
      simp only [framePlanTrips, frameMeal] at hmeal
      rw [List.mem_singleton] at hmeal
      subst hmeal
      rcases List.mem_cons.mp hing with rfl | h
      · rfl
      · rw [List.mem_singleton] at h
        subst h
        rfl
    · have heval : (compensateCaloriesPerProfile frameDetails frameConfig frameAgg frameDeltas
          framePlanTrips).2.meals
          = [⟨"m", "r", "mname", [("A", ["d1"])],
              [⟨"rock", 100, "g", "c", [("A", ⟨100, "g", 1⟩)]⟩,
               ⟨"rice", 100, "g", "c", [("A", ⟨100, "g", 1⟩)]⟩]⟩] := by
        norm_num +decide [compensateCaloriesPerProfile, adjustableNames, adjustMealIngredients,
          adjustmentFactors, adjustableCaloriesPerProfile, factorFor, profileOf, isAdjustable,
          detailsOf, unitSizeTruthy, alookup, aupd, updateLastBy, frameDetails, frameConfig,
          frameAgg, frameAggRock, frameAggRice, frameDeltas, framePlanTrips, frameMeal, pyRound,
          -Int.self_sub_floor]
      rw [heval]
      simp
    · norm_num +decide [adjustableNames, isAdjustable, detailsOf, unitSizeTruthy, alookup,
        frameDetails, frameAgg, frameAggRock, frameAggRice]

/-- Claim C9: the Plan-Level Aggregator is pure — the caller's plan object is
exactly what it was before the call — and idempotent: calling it again on the
plan left by the first call reproduces the identical aggregate and trip-needs
output. -/
theorem aggregator_pure_idempotent (plan : MealPlan) :
    (aggregateIngredientsAcrossTripsCall plan).2 = plan ∧
    (aggregateIngredientsAcrossTripsCall ((aggregateIngredientsAcrossTripsCall plan).2)).1
        = (aggregateIngredientsAcrossTripsCall plan).1 :=
  ⟨rfl, rfl⟩

end Recipier
